/-
Verification of the offline launchpad core (src/fireworks/core/offline_launchpad.py)
and the dataflow firetasks (src/fireworks/user_objects/firetasks/dataflow_tasks.py)
against the natural-language specification.

The Python code is shallowly embedded: the in-memory sqlite database becomes an
explicit state record threaded through every operation, Python exceptions become
an "Except PyError" result, JSON payloads become an inductive value type, and
Python dicts become association lists with Python-dict update semantics
(assignment overwrites in place, otherwise appends; keys are unique).

The entity classes Firework, Workflow and Launch live in fireworks/core/firework.py,
which is not part of the analysed sources; where their behaviour is needed it is
modelled from the specification and marked "Modelled from the spec:".
-/
import Mathlib

set_option maxRecDepth 4000

namespace FireworksSpec

/-- A JSON-like value: the opaque payload content stored in the "data" columns.
The serialization codec (bson.json_util dumps/loads, an external library) is
modelled as a faithful pair, i.e. the blob is represented by the value itself. -/
inductive JValue where
  | null
  | bool (b : Bool)
  | int (n : Int)
  | str (s : String)
  | arr (xs : List JValue)
  | obj (fields : List (String × JValue))

/-- Python exceptions that the embedded code can raise. -/
inductive PyError where
  | notImplementedError
  | attributeError
  | keyError
  | typeError
  | valueError
deriving DecidableEq

/-- Python dict read: d[k] as an Option (first binding wins; dict keys
are unique so there is at most one). -/
def dictLookup {κ β : Type} [DecidableEq κ] : List (κ × β) → κ → Option β
  | [], _ => none
  | kv :: rest, k => if kv.1 = k then some kv.2 else dictLookup rest k

/-- Python dict write: d[k] = v overwrites the binding in place if the key is
present, otherwise appends it. -/
def dictSet {κ β : Type} [DecidableEq κ] : List (κ × β) → κ → β → List (κ × β)
  | [], k, v => [(k, v)]
  | kv :: rest, k, v => if kv.1 = k then (k, v) :: rest else kv :: dictSet rest k v

/-- Python dict d.pop(k): removes the binding for k (no-op here when absent;
every call site either checks first or supplies a default). -/
def dictPop {κ β : Type} [DecidableEq κ] : List (κ × β) → κ → List (κ × β)
  | [], _ => []
  | kv :: rest, k => if kv.1 = k then rest else kv :: dictPop rest k

/-- SQL "UPDATE t SET value = v WHERE key = k": rewrites every row whose key
matches (the meta table has one row per counter name). -/
def sqlUpdate {κ β : Type} [DecidableEq κ] (l : List (κ × β)) (k : κ) (v : β) :
    List (κ × β) :=
  l.map (fun kv => if kv.1 = k then (kv.1, v) else kv)

/-- Modelled from the spec: the worker identity handed to checkout; only its
query field is ever passed along by the analysed code. -/
structure FWorker where
  query : JValue

/-- Modelled from the spec: the Execution Record (Launch) entity
(fireworks/core/firework.py is not under src/). Field list follows the
constructor call in checkout_fw: Launch(state, launch_dir, fworker, host, ip,
trackers=..., state_history=..., launch_id=..., fw_id=...); host, ip, trackers
and state_history default to Python None, modelled as JValue.null. -/
structure Launch where
  state : String
  launch_dir : String
  fworker : FWorker
  host : JValue
  ip : JValue
  trackers : JValue
  state_history : JValue
  launch_id : Nat
  fw_id : Int

/-- Modelled from the spec: the Node (Firework) entity
(fireworks/core/firework.py is not under src/). Per the data model a node has
a unique integer id, a state string, the list of ids of its execution records,
and an opaque payload holding everything else (task definitions, spec,
timestamps such as updated_on). -/
structure Firework where
  fw_id : Int
  state : String
  launches : List Int
  payload : List (String × JValue)

/-- Modelled from the spec: Firework.to_dict, the toRecord half of the
serialization contract. It exposes the indexed scalar fields (id, state)
together with the execution-record list and the opaque payload. -/
def Firework.to_dict (fw : Firework) : List (String × JValue) :=
  ("fw_id", .int fw.fw_id) :: ("state", .str fw.state)
    :: ("launches", .arr (fw.launches.map JValue.int)) :: fw.payload

/-- Decode a JSON list of execution-record ids. -/
def decodeLaunchIds : List JValue → Except PyError (List Int)
  | [] => .ok []
  | .int i :: rest => do
      let is ← decodeLaunchIds rest
      .ok (i :: is)
  | _ => .error .typeError

/-- Modelled from the spec: Firework.from_dict, the fromRecord half of the
serialization contract: reconstructs the entity from the indexed fields plus
the blob. -/
def Firework.from_dict (d : List (String × JValue)) : Except PyError Firework := do
  let fwid ← match dictLookup d "fw_id" with
    | some (.int i) => .ok i
    | some _ => .error .typeError
    | none => .error .keyError
  let d := dictPop d "fw_id"
  let state ← match dictLookup d "state" with
    | some (.str s) => .ok s
    | some .null => .error .typeError
    | some _ => .error .typeError
    | none => .error .keyError
  let d := dictPop d "state"
  let launches ← match dictLookup d "launches" with
    | some (.arr xs) => decodeLaunchIds xs
    | some _ => .error .typeError
    | none => .ok []
  let d := dictPop d "launches"
  .ok { fw_id := fwid, state := state, launches := launches, payload := d }

/-- src line 33: firework_to_sqlite. Splits the entity dict into the indexed
columns (fw_id, state) and the opaque data blob; d.pop("fw_id") /
d.pop("state", None) are rendered with dictLookup followed by dictPop
(to_dict always carries both keys, so the fallback branches are dead).
json.dumps is modelled as the identity embedding of the remaining dict. -/
def firework_to_sqlite (fw : Firework) : Int × Option String × List (String × JValue) :=
  let d := fw.to_dict
  let fwid : Int := match dictLookup d "fw_id" with
    | some (.int i) => i
    | _ => 0
  let d := dictPop d "fw_id"
  let state : Option String := match dictLookup d "state" with
    | some (.str s) => some s
    | _ => none
  let d := dictPop d "state"
  (fwid, state, d)

/-- src line 41: sqlite_to_firework. Parses the blob (json.loads modelled as
the identity) and reinstates the indexed columns into the dict; a NULL state
column becomes Python None, i.e. JValue.null. -/
def sqlite_to_firework (r : Int × Option String × List (String × JValue)) :
    List (String × JValue) :=
  let (fwid, state, data) := r
  let d := data
  let d := dictSet d "fw_id" (.int fwid)
  let d := dictSet d "state" (match state with | some s => .str s | none => .null)
  d

/-- The graph payload written to the workflows table. Modelled from the spec:
Workflow.to_db_dict (fireworks/core/firework.py is not under src/) carries the
member node ids, adjacency, name, metadata, timestamps and the cached
per-node state summary; _update_wf additionally sets a "locked" key. -/
structure WfDbDict where
  nodes : List Int
  links : List (Int × List Int)
  name : String
  metadata : JValue
  created_on : Int
  updated_on : Int
  fw_states : List (Int × String)
  locked : Bool

/-- Modelled from the spec: the Graph (Workflow) entity
(fireworks/core/firework.py is not under src/): a mapping from member node id
to the node, parent-to-children adjacency, name, metadata, timestamps, and the
cached node-id-to-state summary. -/
structure Workflow where
  id_fw : List (Int × Firework)
  links : List (Int × List Int)
  name : String
  metadata : JValue
  created_on : Int
  updated_on : Int
  fw_states : List (Int × String)

/-- Modelled from the spec: root nodes are the members with no incoming
edges in the adjacency. -/
def Workflow.root_fw_ids (wf : Workflow) : List Int :=
  (wf.id_fw.map Prod.fst).filter (fun i => wf.links.all (fun pl => ¬ i ∈ pl.2))

/-- Modelled from the spec: the Workflow constructor used at
`Workflow(fireworks, links, name, metadata, created_on, updated_on, fw_states)`
call sites; when no cached state mapping is passed it is derived from the
given nodes. -/
def Workflow.construct (fws : List Firework) (links : List (Int × List Int))
    (name : String) (metadata : JValue) (created_on updated_on : Int)
    (fw_states : Option (List (Int × String))) : Workflow :=
  { id_fw := fws.map (fun f => (f.fw_id, f)),
    links := links, name := name, metadata := metadata,
    created_on := created_on, updated_on := updated_on,
    fw_states := fw_states.getD (fws.map (fun f => (f.fw_id, f.state))) }

/-- Modelled from the spec: Workflow.to_db_dict, the toRecord half for graphs
(the locked flag is absent in the entity and defaults to false here;
_update_wf sets it). -/
def Workflow.to_db_dict (wf : Workflow) : WfDbDict :=
  { nodes := wf.id_fw.map Prod.fst, links := wf.links, name := wf.name,
    metadata := wf.metadata, created_on := wf.created_on,
    updated_on := wf.updated_on, fw_states := wf.fw_states, locked := false }

/-- src line 50: workflow_to_sqlite; json.dumps of to_db_dict, with the codec
modelled as the identity. -/
def workflow_to_sqlite (wf : Workflow) : WfDbDict :=
  wf.to_db_dict

/-- src line 53: sqlite_to_workflow; json.loads, modelled as the identity. -/
def sqlite_to_workflow (w : WfDbDict) : WfDbDict :=
  w

/-- Modelled from the spec: the id remapping applied by Workflow._reassign_ids
to a single id. -/
def applyMap (old_new : List (Int × Int)) (k : Int) : Int :=
  (dictLookup old_new k).getD k

/-- Modelled from the spec: Workflow._reassign_ids remaps the id_fw keys, the
adjacency and the cached state summary through old_new. The fw_id field of
each member is rewritten here as well: in the source that mutation already
happened inside _upsert_fws through aliasing of the shared Firework objects,
and under the invariant id_fw[k].fw_id = k the net effect is identical. -/
def Workflow.reassign_ids (wf : Workflow) (old_new : List (Int × Int)) : Workflow :=
  { wf with
    id_fw := wf.id_fw.map (fun kv =>
      (applyMap old_new kv.1, { kv.2 with fw_id := applyMap old_new kv.1 })),
    links := wf.links.map (fun pl =>
      (applyMap old_new pl.1, pl.2.map (applyMap old_new))),
    fw_states := wf.fw_states.map (fun kv => (applyMap old_new kv.1, kv.2)) }

/-- Modelled from the spec: launch_to_record, the toRecord half for execution
records: indexed fields (launch_id, state) plus the opaque blob of everything
else. There is no launch serialization in the analysed sources. -/
def launch_to_record (l : Launch) : Nat × String × List (String × JValue) :=
  (l.launch_id, l.state,
    [("fw_id", .int l.fw_id), ("launch_dir", .str l.launch_dir),
     ("fworker", .obj [("query", l.fworker.query)]),
     ("host", l.host), ("ip", l.ip), ("trackers", l.trackers),
     ("state_history", l.state_history)])

/-- Modelled from the spec: launch_from_record, reconstructing the execution
record from the indexed fields plus the blob. -/
def launch_from_record (r : Nat × String × List (String × JValue)) :
    Except PyError Launch :=
  match r with
  | (lid, st, [("fw_id", .int f), ("launch_dir", .str d),
               ("fworker", .obj [("query", q)]),
               ("host", h), ("ip", ip), ("trackers", t),
               ("state_history", sh)]) =>
      .ok { state := st, launch_dir := d, fworker := ⟨q⟩, host := h, ip := ip,
            trackers := t, state_history := sh, launch_id := lid, fw_id := f }
  | _ => .error .typeError

/-- The OfflineLaunchPad state. The first four fields are the sqlite tables
created by reset (src lines 77-96): meta (counter name, value), fireworks
(fw_id, state, data), workflows (wf_id, data), mapping (firework_id,
workflow_id); rows are kept in insertion order and fetchone scans from the
front. The last three fields model the attributes self.fireworks,
self.launches and self.workflows that several methods dereference even though
__init__ (src line 58) never assigns them; they are rendered as key-to-value
document stores so that those methods have definite semantics. -/
structure LP where
  meta : List (String × Nat)
  fireworks : List (Int × Option String × List (String × JValue))
  workflows : List (Nat × WfDbDict)
  mapping : List (Int × Nat)
  fireworksStore : List (String × Firework)
  launchesStore : List (String × Launch)
  workflowsStore : List (String × WfDbDict)

/-- src line 77: reset. Drops and recreates the four tables and seeds the
three id counters at 1. -/
def reset (st : LP) : LP :=
  { st with
    meta := [("next_fw_id", 1), ("next_launch_id", 1), ("next_workflow_id", 1)],
    fireworks := [], workflows := [], mapping := [] }

/-- src line 334: _get_new_and_increment. Reads the counter row and rewrites
it advanced by the increment, returning the value read; a missing counter row
makes fetchone() return None and the [0] subscript raise (TypeError). -/
def _get_new_and_increment (st : LP) (table : String) (increment : Nat) :
    Except PyError (Nat × LP) :=
  match dictLookup st.meta table with
  | none => .error .typeError
  | some next_id =>
      .ok (next_id, { st with meta := sqlUpdate st.meta table (next_id + increment) })

/-- src line 344: _get_new_workflow_id. -/
def _get_new_workflow_id (st : LP) (quantity : Nat) : Except PyError (Nat × LP) :=
  _get_new_and_increment st "next_workflow_id" quantity

/-- src line 348: get_new_fw_id. -/
def get_new_fw_id (st : LP) (quantity : Nat) : Except PyError (Nat × LP) :=
  _get_new_and_increment st "next_fw_id" quantity

/-- src line 351: get_new_launch_id. -/
def get_new_launch_id (st : LP) : Except PyError (Nat × LP) :=
  _get_new_and_increment st "next_launch_id" 1

/-- The fws.sort(key=lambda x: x.fw_id) call in _upsert_fws (src line 357). -/
def sortFws (fws : List Firework) : List Firework :=
  List.insertionSort (fun a b => a.fw_id ≤ b.fw_id) fws

/-- The renumbering loop of the reassign_all branch of _upsert_fws
(src lines 360-366): enumerate(fws, start=first_new_id) pairs each firework,
in sorted order, with its old id and its renumbered copy. -/
def renumber (v : Nat) : List Firework → List (Int × Firework)
  | [] => []
  | fw :: rest => (fw.fw_id, { fw with fw_id := (v : Int) }) :: renumber (v + 1) rest

/-- The loop of the non-reassign branch of _upsert_fws (src lines 378-382):
only fireworks with a negative id receive a fresh id from the allocator. -/
def assignNegIds (st : LP) : List Firework →
    Except PyError (List (Int × Int) × List Firework × LP)
  | [] => .ok ([], [], st)
  | fw :: rest =>
    if fw.fw_id < 0 then do
      let (new_id, st) ← get_new_fw_id st 1
      let (old_new, fws, st) ← assignNegIds st rest
      .ok ((fw.fw_id, (new_id : Int)) :: old_new,
           { fw with fw_id := (new_id : Int) } :: fws, st)
    else do
      let (old_new, fws, st) ← assignNegIds st rest
      .ok (old_new, fw :: fws, st)

/-- src line 354: _upsert_fws. Sorts by id; with reassign_all every firework
gets a fresh id from a single batch reservation, rows carrying the used ids
are deleted and the renumbered rows inserted; without reassign_all only
negative ids are replaced and the rows are inserted with no delete. Returns
the old-to-new id mapping together with the written fireworks and state. -/
def _upsert_fws (st : LP) (fws : List Firework) (reassign_all : Bool) :
    Except PyError (List (Int × Int) × List Firework × LP) := do
  let fws := sortFws fws
  if reassign_all then do
    let (first_new_id, st) ← get_new_fw_id st fws.length
    let pairs := renumber first_new_id fws
    let old_new := pairs.map (fun p => (p.1, p.2.fw_id))
    let renum := pairs.map Prod.snd
    let used_ids := renum.map Firework.fw_id
    let tbl := st.fireworks.filter (fun r => ¬ r.1 ∈ used_ids)
    let tbl := tbl ++ renum.map firework_to_sqlite
    .ok (old_new, renum, { st with fireworks := tbl })
  else do
    let (old_new, fws, st) ← assignNegIds st fws
    .ok (old_new, fws, { st with fireworks := st.fireworks ++ fws.map firework_to_sqlite })

/-- The root-marking loop at the top of add_wf (src lines 106-108): every root
member is set READY both in the node itself and in the cached state summary.
The loop runs over root_fw_ids and touches exactly the entries with those
keys, which is what the pointwise map renders. -/
def markRootsReady (wf : Workflow) : Workflow :=
  let roots := wf.root_fw_ids
  { wf with
    id_fw := wf.id_fw.map (fun kv =>
      if kv.1 ∈ roots then (kv.1, { kv.2 with state := "READY" }) else kv),
    fw_states := wf.fw_states.map (fun kv =>
      if kv.1 ∈ roots then (kv.1, "READY") else kv) }

/-- src line 101: add_wf. Marks roots READY, upserts the members with
reassign_all (one id per member from a batch reservation), remaps the
workflow ids, then allocates a workflow id twice (src lines 115 and 118; the
first value is discarded), inserts the serialized workflow under the second
value and one mapping row per member. Returns the old-to-new id mapping. -/
def add_wf (st : LP) (wf : Workflow) (reassign_all : Bool) :
    Except PyError (List (Int × Int) × LP) := do
  let wf := markRootsReady wf
  let (old_new, _fws, st) ← _upsert_fws st (wf.id_fw.map Prod.snd) reassign_all
  let wf := wf.reassign_ids old_new
  let (_wf_id, st) ← _get_new_workflow_id st 1
  let (workflow_id, st) ← _get_new_workflow_id st 1
  let st := { st with
    workflows := st.workflows ++ [(workflow_id, workflow_to_sqlite wf)],
    mapping := st.mapping ++ (wf.id_fw.map (fun kv => (kv.1, workflow_id))) }
  .ok (old_new, st)

/-- src line 136: get_fw_dict_by_id. fetchone on the fireworks table (first
row in insertion order); an absent row makes sqlite_to_firework unpack None
and raise (TypeError). -/
def get_fw_dict_by_id (st : LP) (fw_id : Int) :
    Except PyError (List (String × JValue)) :=
  match st.fireworks.find? (fun r => r.1 == fw_id) with
  | some row => .ok (sqlite_to_firework row)
  | none => .error .typeError

/-- src line 143: get_fw_by_id. -/
def get_fw_by_id (st : LP) (fw_id : Int) : Except PyError Firework := do
  let d ← get_fw_dict_by_id st fw_id
  Firework.from_dict d

/-- The list comprehension [self.get_fw_by_id(i) for i in workflow["nodes"]]
(src line 159). -/
def exceptMapM {α β : Type} (f : α → Except PyError β) :
    List α → Except PyError (List β)
  | [] => .ok []
  | a :: as => do
      let b ← f a
      let bs ← exceptMapM f as
      .ok (b :: bs)

/-- src line 146: get_wf_by_fw_id. Resolves the owning workflow id through the
mapping table, fetches and parses the graph payload, hydrates every member
node from the fireworks table and rebuilds the Workflow (no cached state
summary is passed). fetchone()[0] on an absent row raises (TypeError). -/
def get_wf_by_fw_id (st : LP) (fw_id : Int) : Except PyError Workflow := do
  let wf_id ← match st.mapping.find? (fun r => r.1 == fw_id) with
    | some row => .ok row.2
    | none => .error .typeError
  let wdata ← match st.workflows.find? (fun r => r.1 == wf_id) with
    | some row => .ok row.2
    | none => .error .typeError
  let workflow := sqlite_to_workflow wdata
  let fireworks ← exceptMapM (get_fw_by_id st) workflow.nodes
  .ok (Workflow.construct fireworks workflow.links workflow.name
        workflow.metadata workflow.created_on workflow.updated_on none)

/-- src line 165: get_wf_by_fw_id_lzyfw. Same resolution, but the members are
LazyFirework stubs; the LazyFirework class at the bottom of the file (src
line 447) stores only the id and a hook and implements no loading, so every
other field is a placeholder. The cached state summary is taken from the
payload (always present in the modelled payload). -/
def get_wf_by_fw_id_lzyfw (st : LP) (fw_id : Int) : Except PyError Workflow := do
  let wf_id ← match st.mapping.find? (fun r => r.1 == fw_id) with
    | some row => .ok row.2
    | none => .error .typeError
  let wdata ← match st.workflows.find? (fun r => r.1 == wf_id) with
    | some row => .ok row.2
    | none => .error .typeError
  let workflow := sqlite_to_workflow wdata
  let fws := workflow.nodes.map (fun i =>
    ({ fw_id := i, state := "", launches := [], payload := [] } : Firework))
  .ok (Workflow.construct fws workflow.links workflow.name workflow.metadata
        workflow.created_on workflow.updated_on (some workflow.fw_states))

/-- Python truthiness of the optional fw_id argument: None and 0 are falsy. -/
def pyTruthy : Option Int → Bool
  | none => false
  | some i => i != 0

/-- Python str() of the optional fw_id argument: str(None) is "None". -/
def pyStr : Option Int → String
  | none => "None"
  | some i => toString i

/-- src line 239: _get_a_fw_to_run. With a (truthy) explicit id the node is
read from self.fireworks by key (a missing key surfaces as a lookup error,
per the document-store contract); otherwise find_one returns the first node
with state READY, or None. With checkout the node is marked RESERVED, its
updated_on is stamped, and it is written back under str(fw_id) - the
parameter, which is the string "None" in the find_one branch; writing through
a None node raises AttributeError. The function has no return statement, so
it always produces None. -/
def _get_a_fw_to_run (st : LP) (query : JValue) (fw_id : Option Int) (now : Int)
    (checkout : Bool) : Except PyError (Option Firework × LP) := do
  let firework ← if pyTruthy fw_id then
      match dictLookup st.fireworksStore (pyStr fw_id) with
      | some fw => Except.ok (some fw)
      | none => Except.error PyError.keyError
    else
      Except.ok ((st.fireworksStore.find? (fun kv => kv.2.state == "READY")).map Prod.snd)
  if checkout then
    match firework with
    | none => .error .attributeError
    | some fw =>
      let fw := { fw with
        state := "RESERVED",
        payload := dictSet fw.payload "updated_on" (.int now) }
      let st := { st with fireworksStore := dictSet st.fireworksStore (pyStr fw_id) fw }
      .ok (none, st)
  else
    .ok (none, st)

/-- Modelled from the spec: the action returned by a task
(fireworks/core/firework.py FWAction is not under src/): spec updates to
merge, stored data, list-push modifications, detour nodes, and the flag
requesting whole-graph defusal. Only the fields used by the analysed
firetasks appear. -/
structure FWAction where
  stored_data : List (String × JValue)
  update_spec : List (String × JValue)
  mod_spec : List JValue
  detours : List Firework
  defuse_workflow : Bool

/-- The FWAction() default constructor: every effect field empty. -/
def FWAction.empty : FWAction :=
  { stored_data := [], update_spec := [], mod_spec := [], detours := [],
    defuse_workflow := false }

/-- src line 328: complete_launch raises NotImplementedError unconditionally. -/
def complete_launch (st : LP) (launch_id : Nat) (action : Option FWAction)
    (state : String) : Except PyError LP :=
  .error .notImplementedError

/-- Modelled from the spec: the authoritative state of a member node inside a
loaded workflow. -/
def Workflow.stateOfNode (wf : Workflow) (i : Int) : String :=
  match dictLookup wf.id_fw i with
  | some fw => fw.state
  | none => ""

/-- Modelled from the spec: the parents of a node under the adjacency. -/
def Workflow.parentsOf (wf : Workflow) (c : Int) : List Int :=
  (wf.links.filter (fun pl => c ∈ pl.2)).map Prod.fst

/-- Modelled from the spec: the children of a node under the adjacency. -/
def Workflow.childrenOf (wf : Workflow) (p : Int) : List Int :=
  (dictLookup wf.links p).getD []

/-- Modelled from the spec: set one node state, both in the node and in the
cached state summary. -/
def Workflow.setState (wf : Workflow) (i : Int) (s : String) : Workflow :=
  { wf with
    id_fw := wf.id_fw.map (fun kv =>
      if kv.1 = i then (kv.1, { kv.2 with state := s }) else kv),
    fw_states := sqlUpdate wf.fw_states i s }

/-- Terminal node states at which defusal propagation stops. -/
def terminalStates : List String := ["COMPLETED", "FIZZLED", "DEFUSED", "ARCHIVED"]

/-- Fuel-bounded breadth-first collection of the transitive descendants. -/
def Workflow.descendantsAux (wf : Workflow) :
    Nat → List Int → List Int → List Int
  | 0, _, acc => acc
  | fuel + 1, frontier, acc =>
    match frontier with
    | [] => acc
    | c :: rest =>
      if c ∈ acc then wf.descendantsAux fuel rest acc
      else wf.descendantsAux fuel (rest ++ wf.childrenOf c) (acc ++ [c])

/-- Modelled from the spec: Workflow.refresh
(fireworks/core/firework.py is not under src/), one level of the refresh
engine: a COMPLETED node readies each WAITING child all of whose parents are
COMPLETED; a FIZZLED or DEFUSED node marks every non-terminal descendant
DEFUSED; the set of changed ids is returned and the graph-level timestamp is
advanced. -/
def Workflow.refresh (wf : Workflow) (fw_id : Int) (now : Int) :
    List Int × Workflow :=
  let s := wf.stateOfNode fw_id
  if s = "COMPLETED" then
    let newlyReady := (wf.childrenOf fw_id).filter (fun c =>
      wf.stateOfNode c == "WAITING"
        && (wf.parentsOf c).all (fun p => wf.stateOfNode p == "COMPLETED"))
    let wf2 := newlyReady.foldl (fun w c => w.setState c "READY") wf
    (newlyReady, { wf2 with updated_on := now })
  else if s = "FIZZLED" ∨ s = "DEFUSED" then
    let fuel := (wf.id_fw.length + 1)
      * (wf.links.foldl (fun a pl => a + pl.2.length) 0 + wf.id_fw.length + 1)
    let descs := wf.descendantsAux fuel (wf.childrenOf fw_id) []
    let toDefuse := descs.filter (fun d => ¬ wf.stateOfNode d ∈ terminalStates)
    let wf2 := toDefuse.foldl (fun w c => w.setState c "DEFUSED") wf
    (toDefuse, { wf2 with updated_on := now })
  else
    ([], { wf with updated_on := now })

/-- src line 402: _update_wf. Re-persists exactly the changed members through
_upsert_fws (without reassign_all, so only negative ids are renumbered),
remaps ids, runs the query_node search loop (whose result is never used; the
for-else raises ValueError when no member qualifies), then writes the
serialized workflow, with locked set, under the constant key "1" of
self.workflows. -/
def _update_wf (st : LP) (wf : Workflow) (updated_ids : List Int) :
    Except PyError LP := do
  let updated_fws ← exceptMapM (fun fid =>
    match dictLookup wf.id_fw fid with
    | some fw => Except.ok fw
    | none => Except.error PyError.keyError) updated_ids
  let (old_new, _fws, st) ← _upsert_fws st updated_fws false
  let wf := wf.reassign_ids old_new
  let _query_node ← match wf.id_fw.find? (fun kv =>
      old_new.all (fun p => p.2 != kv.1)
        || dictLookup old_new kv.1 == some kv.1) with
    | some kv => Except.ok kv.1
    | none => Except.error PyError.valueError
  let wfd := { wf.to_db_dict with locked := true }
  .ok { st with workflowsStore := dictSet st.workflowsStore "1" wfd }

/-- src line 395: _refresh_wf. Loads the owning workflow lazily, runs one
refresh step from the changed node and persists through _update_wf. -/
def _refresh_wf (st : LP) (fw_id : Int) (now : Int) : Except PyError LP := do
  let wf ← get_wf_by_fw_id_lzyfw st fw_id
  let (updated_ids, wf) := wf.refresh fw_id now
  _update_wf st wf updated_ids

/-- src line 285: checkout_fw. Asks _get_a_fw_to_run for a node; a falsy
result short-circuits to the (None, None) pair. In the other branch (which
the theorems below show is unreachable, _get_a_fw_to_run having no return
statement) a launch id is allocated, the execution record is created with the
requested state and written to self.launches, its id is appended to the
node's record list, the node state is set and upserted, and the workflow is
refreshed; the method body then ends without a return statement, producing
Python None - rendered as the outer none, while the (None, None) pair is
some (none, none). -/
def checkout_fw (st : LP) (fworker : FWorker) (launch_dir : String)
    (fw_id : Option Int) (host ip : JValue) (state : String) (now : Int) :
    Except PyError (Option (Option Firework × Option Launch) × LP) := do
  let (m_fw, st) ← _get_a_fw_to_run st fworker.query fw_id now true
  match m_fw with
  | none => .ok (some (none, none), st)
  | some m_fw => do
    let (launch_id, st) ← get_new_launch_id st
    let trackers := JValue.null
    let m_launch : Launch :=
      { state := state, launch_dir := launch_dir, fworker := fworker,
        host := host, ip := ip, trackers := trackers, state_history := .null,
        launch_id := launch_id, fw_id := m_fw.fw_id }
    let st := { st with
      launchesStore := dictSet st.launchesStore (toString m_launch.launch_id) m_launch }
    let m_fw := { m_fw with launches := m_fw.launches ++ [(launch_id : Int)] }
    let m_fw := { m_fw with state := state }
    let (_, _, st) ← _upsert_fws st [m_fw] false
    let st ← _refresh_wf st m_fw.fw_id now
    .ok (none, st)

/-- The membership test of the split argument against the task inputs
(src lines 75-80): Python "in" compares with ==, and a string never equals a
non-string element. -/
def inputsContain (node_input : JValue) (key : String) : Bool :=
  match node_input with
  | .arr l => l.any (fun v => match v with | .str t => t == key | _ => false)
  | .str t => t == key
  | _ => false

/-- Modelled from the spec: a fresh detour node built by the
Firework(tasks, spec=..., name=...) constructor
(fireworks/core/firework.py is not under src/): placeholder id -1, default
state WAITING, no execution records yet, with the task list, spec and name in
the payload. -/
def Firework.construct (tasks : JValue) (spec : List (String × JValue))
    (name : String) : Firework :=
  { fw_id := -1, state := "WAITING", launches := [],
    payload := [("name", .str name), ("spec", .obj spec), ("_tasks", tasks)] }

/-- The spec carried by a (detour) node. -/
def Firework.spec (fw : Firework) : List (String × JValue) :=
  match dictLookup fw.payload "spec" with
  | some (.obj s) => s
  | _ => []

/-- The ForeachTask parameter dict (dataflow src lines 64-66): function,
split and inputs are required, outputs optional. Parameter values are kept as
JSON values because the source type-checks them at run time. -/
structure ForeachTask where
  function : String
  split : JValue
  inputs : JValue
  outputs : Option JValue

/-- The SingleTask instance created for one detour (dataflow src lines
92-98), encoded as the payload task entry. -/
def singleTaskFor (t : ForeachTask) (index : Nat) : JValue :=
  .obj [("_fw_name", .str "SingleTask"), ("function", .str t.function),
        ("inputs", t.inputs),
        ("outputs", match t.outputs with | some o => o | none => .null),
        ("current", .int index)]

/-- The detour-building loop of ForeachTask.run_task (dataflow src lines
87-102): one firework per element of the split list, whose spec is a copy of
the incoming spec with the split key set to that element. -/
def buildDetours (t : ForeachTask) (fw_spec : List (String × JValue))
    (splitKey : String) : List JValue → Nat → List Firework
  | [], _ => []
  | x :: rest, index =>
      Firework.construct (singleTaskFor t index) (dictSet fw_spec splitKey x)
        ("ForeachTask " ++ toString index)
        :: buildDetours t fw_spec splitKey rest (index + 1)

/-- dataflow src line 68: ForeachTask.run_task. Checks that split is a
string, that it indexes a list in the spec (a missing key raises KeyError
before the list check), and that it occurs among the inputs; an empty split
list yields a whole-workflow defusal action, otherwise one detour per
element. -/
def ForeachTask.run_task (t : ForeachTask) (fw_spec : List (String × JValue)) :
    Except PyError FWAction := do
  let split_input := t.split
  let node_input := t.inputs
  let splitKey ← match split_input with
    | .str s => Except.ok s
    | _ => Except.error PyError.typeError
  let splitVal ← match dictLookup fw_spec splitKey with
    | some v => Except.ok v
    | none => Except.error PyError.keyError
  let xs ← match splitVal with
    | .arr xs => Except.ok xs
    | _ => Except.error PyError.typeError
  let _ ← if inputsContain node_input splitKey then Except.ok ()
    else Except.error PyError.valueError
  let number := xs.length
  if number < 1 then
    .ok { FWAction.empty with defuse_workflow := true }
  else
    .ok { FWAction.empty with detours := buildDetours t fw_spec splitKey xs 0 }

/-! ### Concrete states used to evaluate the code on failing inputs -/

/-- A launchpad whose tables and stores are all empty. -/
def lpEmpty : LP :=
  { meta := [], fireworks := [], workflows := [], mapping := [],
    fireworksStore := [], launchesStore := [], workflowsStore := [] }

/-- A READY node, as a worker would hope to claim it. -/
def fwReadySample : Firework :=
  { fw_id := 1, state := "READY", launches := [],
    payload := [("spec", .obj [("a", .int 1)])] }

/-- A store holding exactly one READY node. -/
def lpWithReady : LP :=
  { lpEmpty with
    meta := [("next_fw_id", 2), ("next_launch_id", 1), ("next_workflow_id", 1)],
    fireworksStore := [("1", fwReadySample)] }

/-- C1. The claim is that checkout with no explicit node id returns the
claimed node and a fresh execution record whenever a READY node exists, and
(none, none) exactly when none exists. The code does neither:
_get_a_fw_to_run (src 239-251) has no return statement, so checkout_fw
always sees a falsy node and answers (None, None) even though a READY node
exists (first conjunct; the READY node is meanwhile re-written RESERVED
under the key str(None) = "None"); and when no READY node exists,
find_one yields None and the checkout block dereferences it, raising
AttributeError instead of returning (None, None) (second conjunct). -/
theorem c1_checkout_never_returns_a_node :
    (checkout_fw lpWithReady ⟨.null⟩ "launch_dir" none .null .null "RUNNING" 77
      = .ok (some (none, none),
          { lpWithReady with
            fireworksStore := [("1", fwReadySample),
              ("None", { fwReadySample with
                state := "RESERVED",
                payload := [("spec", .obj [("a", .int 1)]),
                            ("updated_on", .int 77)] })] }))
    ∧ (checkout_fw lpEmpty ⟨.null⟩ "launch_dir" none .null .null "RUNNING" 77
        = .error .attributeError) := by
  constructor
  · rfl
  · rfl

/-- C2, counterexample. complete_launch (src 328) never reaches a success
state on any input: at launch id 1 with the default action and COMPLETED it
does not load, mutate or persist anything. -/
theorem c2_complete_launch_counterexample :
    ¬ ∃ st2, complete_launch lpWithReady 1 none "COMPLETED" = .ok st2 := by
  rintro ⟨st2, h⟩
  simp [complete_launch] at h

/-- C2, amended. complete_launch is unimplemented: for every store, record
id, action and final state it raises NotImplementedError and performs no
effect. -/
theorem c2_complete_launch_raises (st : LP) (launch_id : Nat)
    (action : Option FWAction) (state : String) :
    complete_launch st launch_id action state = .error .notImplementedError := rfl

/-- The node re-persisted by _update_wf in the C4 scenario. -/
def fwC4 : Firework :=
  { fw_id := 5, state := "COMPLETED", launches := [], payload := [] }

/-- The owning workflow of the C4 scenario (single member, node 5). -/
def wfC4 : Workflow :=
  { id_fw := [(5, fwC4)], links := [(5, [])], name := "w", metadata := .null,
    created_on := 0, updated_on := 3, fw_states := [(5, "COMPLETED")] }

/-- A store in which the C4 graph is persisted under its own id 2, and an
unrelated node 7 is also present. -/
def lpC4 : LP :=
  { lpEmpty with
    meta := [("next_fw_id", 8), ("next_launch_id", 1), ("next_workflow_id", 3)],
    fireworks := [(5, some "RUNNING", [("launches", .arr [])]),
                  (7, some "WAITING", [("y", .int 0)])],
    workflows := [(2, wfC4.to_db_dict)],
    mapping := [(5, 2), (7, 2)] }

/-- C4. The frame half of the claim holds on this input: only the changed
node 5 is re-persisted and the record of node 7 is untouched. The
graph-payload half fails: the claim says the payload is rewritten under the
graph's own id (2 here), but _update_wf (src 402-417) leaves the workflows
table unchanged - the stale payload is still the only row under id 2 - and
writes the fresh payload (locked, with the cached summary) under the
constant key "1" of self.workflows; the query_node value computed for the
lookup is never used. -/
theorem c4_update_wf_writes_under_constant_key :
    (_update_wf lpC4 wfC4 [5]
      = .ok { lpC4 with
          fireworks := [(5, some "RUNNING", [("launches", .arr [])]),
                        (7, some "WAITING", [("y", .int 0)]),
                        (5, some "COMPLETED", [("launches", .arr [])])],
          workflowsStore := [("1",
            { nodes := [5], links := [(5, [])], name := "w", metadata := .null,
              created_on := 0, updated_on := 3,
              fw_states := [(5, "COMPLETED")], locked := true })] })
    ∧ ((lpC4.workflows.find? (fun row => row.1 == 2))
        = some (2, wfC4.to_db_dict)) := by
  constructor
  · rfl
  · rfl

/-- The pre-state of the C5 scenario: node 1 is already stored READY. -/
def lpC5 : LP :=
  { lpEmpty with fireworks := [(1, some "READY", [("x", .int 1)])] }

/-- The same node with id 1, handed to the upsert with its new RUNNING
state. -/
def fwC5 : Firework :=
  { fw_id := 1, state := "RUNNING", launches := [], payload := [("x", .int 2)] }

/-- The post-state the code actually produces in the C5 scenario. -/
def lpC5after : LP :=
  { lpEmpty with
    fireworks := [(1, some "READY", [("x", .int 1)]),
                  (1, some "RUNNING", [("launches", .arr []), ("x", .int 2)])] }

/-- C5. The claim says a point put of a node whose id is already stored
fully overwrites the record, keeping at most one record per id, with a
subsequent point get returning the new record. The code (the non-reassign
branch of _upsert_fws, src 377-385) only inserts: afterwards the table
holds two rows for id 1, and get_fw_dict_by_id returns the first - the
stale READY record, not the RUNNING one just written. -/
theorem c5_upsert_duplicates_instead_of_overwriting :
    (_upsert_fws lpC5 [fwC5] false = .ok ([], [fwC5], lpC5after))
    ∧ ((lpC5after.fireworks.filter (fun r => r.1 == 1)).length = 2)
    ∧ (get_fw_dict_by_id lpC5after 1
        = .ok [("x", .int 1), ("fw_id", .int 1), ("state", .str "READY")]) := by
  refine ⟨?_, ?_, ?_⟩
  · rfl
  · rfl
  · rfl

/-- A node in a terminal state, which checkout must not claim. -/
def fwCompletedSample : Firework :=
  { fw_id := 1, state := "COMPLETED", launches := [], payload := [] }

/-- A store holding exactly that COMPLETED node. -/
def lpWithCompleted : LP :=
  { lpEmpty with fireworksStore := [("1", fwCompletedSample)] }

/-- C6. The claim says a checkout that targets an explicit node id fails or
returns none when the node is not READY, and leaves the node unclaimed.
The call indeed returns (None, None) - _get_a_fw_to_run has no return
statement - but the node IS claimed: _get_a_fw_to_run (src 239-251) never
checks the state in its explicit-id branch and unconditionally rewrites the
COMPLETED node to RESERVED. -/
theorem c6_checkout_claims_non_ready_node :
    checkout_fw lpWithCompleted ⟨.null⟩ "launch_dir" (some 1) .null .null
        "RUNNING" 9
      = .ok (some (none, none),
          { lpWithCompleted with
            fireworksStore := [("1",
              { fw_id := 1, state := "RESERVED", launches := [],
                payload := [("updated_on", .int 9)] })] }) := by
  rfl

/-! ### C3: the id allocator -/

/-- A sequence of nextId calls against one counter, collecting each returned
(firstId, quantity) pair. -/
def allocRanges (st : LP) (name : String) : List Nat →
    Except PyError (List (Nat × Nat) × LP)
  | [] => .ok ([], st)
  | q :: qs => do
    let (first, st) ← _get_new_and_increment st name q
    let (rs, st) ← allocRanges st name qs
    .ok ((first, q) :: rs, st)

theorem dictLookup_sqlUpdate_self {κ β : Type} [DecidableEq κ]
    (l : List (κ × β)) (k : κ) (v : β) :
    dictLookup (sqlUpdate l k v) k = (dictLookup l k).map (fun _ => v) := by
  induction l with
  | nil => rfl
  | cons kv rest ih =>
    by_cases h : kv.1 = k
    · simp [sqlUpdate, dictLookup, h]
    · simp only [sqlUpdate, List.map_cons] at ih ⊢
      simp [dictLookup, h, ih]

theorem dictLookup_sqlUpdate_ne {κ β : Type} [DecidableEq κ]
    (l : List (κ × β)) (k k2 : κ) (v : β) (h : k2 ≠ k) :
    dictLookup (sqlUpdate l k v) k2 = dictLookup l k2 := by
  induction l with
  | nil => rfl
  | cons kv rest ih =>
    by_cases hk : kv.1 = k
    · have hk2 : ¬ (k = k2) := fun he => h he.symm
      simp only [sqlUpdate, List.map_cons] at ih ⊢
      simp [dictLookup, hk, hk2, ih]
    · simp only [sqlUpdate, List.map_cons] at ih ⊢
      simp [dictLookup, hk, ih]

/-- The allocator hands out the contiguous ranges of a partition: flattening
the returned ranges yields exactly the interval starting at the initial
counter value. -/
theorem allocRanges_partition (qs : List Nat) :
    ∀ (st : LP) (name : String) (v : Nat),
      dictLookup st.meta name = some v →
      (allocRanges st name qs).map
          (fun p => p.1.flatMap (fun aq => List.range' aq.1 aq.2))
        = .ok (List.range' v qs.sum) := by
  induction qs with
  | nil =>
    intro st name v h
    simp [allocRanges, Except.map]
  | cons q qs ih =>
    intro st name v h
    have hstep : _get_new_and_increment st name q
        = .ok (v, { st with meta := sqlUpdate st.meta name (v + q) }) := by
      simp [_get_new_and_increment, h]
    have hnext : dictLookup (sqlUpdate st.meta name (v + q)) name = some (v + q) := by
      rw [dictLookup_sqlUpdate_self, h]; rfl
    have ihv := ih { st with meta := sqlUpdate st.meta name (v + q) } name (v + q) hnext
    rcases hrec : allocRanges { st with meta := sqlUpdate st.meta name (v + q) } name qs with e | pr
    · rw [hrec] at ihv; simp [Except.map] at ihv
    · obtain ⟨rs, st2⟩ := pr
      rw [hrec] at ihv
      simp only [Except.map] at ihv
      injection ihv with hflat
      have happ : List.range' v q ++ List.range' (v + q) qs.sum
          = List.range' v (q + qs.sum) := by
        have := List.range'_append v q qs.sum 1
        simpa [Nat.add_comm] using this
      have hgoal : allocRanges st name (q :: qs)
          = Except.ok ((v, q) :: rs, st2) := by
        simp [allocRanges, hstep, hrec, Bind.bind, Except.bind]
      rw [hgoal]
      simp only [Except.map, List.flatMap_cons, List.sum_cons]
      rw [hflat, happ]

/-- C3. After a reset, any sequence of nextId calls against one of the seeded
counters partitions the id space [1, sum+1) with no overlaps and no gaps
(first conjunct: the concatenation of the returned ranges is exactly the
interval); in particular a first call on the node-id counter with quantity 5
returns 1 and the following call returns 6. -/
theorem c3_allocator_partitions (st : LP) (name : String) (qs : List Nat)
    (h : dictLookup (reset st).meta name = some 1) :
    ((allocRanges (reset st) name qs).map
        (fun p => p.1.flatMap (fun aq => List.range' aq.1 aq.2))
      = .ok (List.range' 1 qs.sum))
    ∧ ((get_new_fw_id (reset st) 5).map Prod.fst = .ok 1)
    ∧ (((get_new_fw_id (reset st) 5).bind
          (fun p => get_new_fw_id p.2 1)).map Prod.fst = .ok 6) := by
  refine ⟨allocRanges_partition qs _ name 1 h, rfl, rfl⟩

/-- C3 witness: three allocations of sizes 5, 1 and 3 from the freshly reset
node-id counter cover exactly 1..9, and the scenario calls return 1 then 6. -/
theorem c3_witness :
    ((allocRanges (reset lpEmpty) "next_fw_id" [5, 1, 3]).map
        (fun p => p.1.flatMap (fun aq => List.range' aq.1 aq.2))
      = .ok (List.range' 1 9))
    ∧ ((get_new_fw_id (reset lpEmpty) 5).map Prod.fst = .ok 1)
    ∧ (((get_new_fw_id (reset lpEmpty) 5).bind
          (fun p => get_new_fw_id p.2 1)).map Prod.fst = .ok 6) :=
  c3_allocator_partitions lpEmpty "next_fw_id" [5, 1, 3] rfl

/-! ### C9: serialization round-trips -/

theorem dictLookup_append_right {κ β : Type} [DecidableEq κ]
    (l1 l2 : List (κ × β)) (k : κ) (h : ¬ k ∈ l1.map Prod.fst) :
    dictLookup (l1 ++ l2) k = dictLookup l2 k := by
  induction l1 with
  | nil => rfl
  | cons kv rest ih =>
    simp only [List.map_cons, List.mem_cons] at h
    push_neg at h
    have hne : ¬ kv.1 = k := fun he => h.1 he.symm
    simp [dictLookup, hne, ih h.2]

theorem dictPop_append_right {κ β : Type} [DecidableEq κ]
    (l1 l2 : List (κ × β)) (k : κ) (h : ¬ k ∈ l1.map Prod.fst) :
    dictPop (l1 ++ l2) k = l1 ++ dictPop l2 k := by
  induction l1 with
  | nil => rfl
  | cons kv rest ih =>
    simp only [List.map_cons, List.mem_cons] at h
    push_neg at h
    have hne : ¬ kv.1 = k := fun he => h.1 he.symm
    simp [dictPop, hne, ih h.2]

theorem dictSet_of_not_mem {κ β : Type} [DecidableEq κ]
    (l : List (κ × β)) (k : κ) (v : β) (h : ¬ k ∈ l.map Prod.fst) :
    dictSet l k v = l ++ [(k, v)] := by
  induction l with
  | nil => rfl
  | cons kv rest ih =>
    simp only [List.map_cons, List.mem_cons] at h
    push_neg at h
    have hne : ¬ kv.1 = k := fun he => h.1 he.symm
    simp [dictSet, hne, ih h.2]

theorem decodeLaunchIds_map_int (l : List Int) :
    decodeLaunchIds (l.map JValue.int) = .ok l := by
  induction l with
  | nil => rfl
  | cons i rest ih => simp [decodeLaunchIds, ih, Bind.bind, Except.bind]

/-- The node record round-trip: splitting a node into its sqlite row and
re-reading it reconstructs an equal entity, provided the opaque payload does
not shadow the indexed keys. Shared by C8 (hydration) and C9. -/
theorem fw_record_roundtrip (fw : Firework)
    (h1 : ¬ "fw_id" ∈ fw.payload.map Prod.fst)
    (h2 : ¬ "state" ∈ fw.payload.map Prod.fst)
    (h3 : ¬ "launches" ∈ fw.payload.map Prod.fst) :
    Firework.from_dict (sqlite_to_firework (firework_to_sqlite fw)) = .ok fw := by
  have hf2s : firework_to_sqlite fw
      = (fw.fw_id, some fw.state,
         ("launches", .arr (fw.launches.map JValue.int)) :: fw.payload) := rfl
  rw [hf2s]
  have s1 : dictSet fw.payload "fw_id" (JValue.int fw.fw_id)
      = fw.payload ++ [("fw_id", JValue.int fw.fw_id)] :=
    dictSet_of_not_mem _ _ _ h1
  have h2' : ¬ "state" ∈ (fw.payload ++ [("fw_id", JValue.int fw.fw_id)]).map Prod.fst := by
    simp only [List.map_append, List.mem_append] at *
    rintro (hc | hc)
    · exact h2 hc
    · simp at hc
  have s2 : dictSet (fw.payload ++ [("fw_id", JValue.int fw.fw_id)]) "state"
        (JValue.str fw.state)
      = fw.payload ++ [("fw_id", JValue.int fw.fw_id), ("state", JValue.str fw.state)] := by
    rw [dictSet_of_not_mem _ _ _ h2', List.append_assoc]
    rfl
  have e1 : sqlite_to_firework (fw.fw_id, some fw.state,
        ("launches", .arr (fw.launches.map JValue.int)) :: fw.payload)
      = ("launches", .arr (fw.launches.map JValue.int))
          :: (fw.payload ++ [("fw_id", JValue.int fw.fw_id),
                             ("state", JValue.str fw.state)]) := by
    simp [sqlite_to_firework, dictSet, s1, s2]
  rw [e1]
  have l1 : dictLookup (("launches", JValue.arr (fw.launches.map JValue.int))
        :: (fw.payload ++ [("fw_id", JValue.int fw.fw_id),
                           ("state", JValue.str fw.state)])) "fw_id"
      = some (JValue.int fw.fw_id) := by
    simp only [dictLookup, if_neg (by decide : ¬ ("launches" : String) = "fw_id")]
    rw [dictLookup_append_right _ _ _ h1]
    rfl
  have p1 : dictPop (("launches", JValue.arr (fw.launches.map JValue.int))
        :: (fw.payload ++ [("fw_id", JValue.int fw.fw_id),
                           ("state", JValue.str fw.state)])) "fw_id"
      = ("launches", JValue.arr (fw.launches.map JValue.int))
          :: (fw.payload ++ [("state", JValue.str fw.state)]) := by
    simp only [dictPop, if_neg (by decide : ¬ ("launches" : String) = "fw_id")]
    rw [dictPop_append_right _ _ _ h1]
    rfl
  have l2 : dictLookup (("launches", JValue.arr (fw.launches.map JValue.int))
        :: (fw.payload ++ [("state", JValue.str fw.state)])) "state"
      = some (JValue.str fw.state) := by
    simp only [dictLookup, if_neg (by decide : ¬ ("launches" : String) = "state")]
    rw [dictLookup_append_right _ _ _ h2]
    rfl
  have p2 : dictPop (("launches", JValue.arr (fw.launches.map JValue.int))
        :: (fw.payload ++ [("state", JValue.str fw.state)])) "state"
      = ("launches", JValue.arr (fw.launches.map JValue.int)) :: fw.payload := by
    simp only [dictPop, if_neg (by decide : ¬ ("launches" : String) = "state")]
    rw [dictPop_append_right _ _ _ h2]
    simp [dictPop]
  have l3 : dictLookup (("launches", JValue.arr (fw.launches.map JValue.int))
        :: fw.payload) "launches"
      = some (JValue.arr (fw.launches.map JValue.int)) := by
    simp [dictLookup]
  have p3 : dictPop (("launches", JValue.arr (fw.launches.map JValue.int))
        :: fw.payload) "launches" = fw.payload := by
    simp [dictPop]
  simp [Firework.from_dict, l1, p1, l2, p2, l3, p3, decodeLaunchIds_map_int,
    Bind.bind, Except.bind]

/-- Rebuilding the id-to-node mapping from the hydrated node list is the
identity when every node carries its own key as id. -/
theorem hydrate_pairs (l : List (Int × Firework))
    (h : ∀ kv ∈ l, kv.2.fw_id = kv.1) :
    (l.map Prod.snd).map (fun f => (f.fw_id, f)) = l := by
  induction l with
  | nil => rfl
  | cons kv rest ih =>
    have hh := h kv (by simp)
    simp only [List.map_cons, hh]
    rw [ih (fun x hx => h x (by simp [hx]))]

/-- C9. toRecord/fromRecord round-trips for the three entities: a node
re-read from its sqlite row reconstructs an equal entity for arbitrary
payload content (first conjunct); a graph payload survives the
dumps/loads pair exactly (second conjunct) and re-running the Workflow
constructor on the hydrated members and the parsed payload reproduces the
entity (third conjunct); an execution record round-trips for arbitrary
content with no side condition (fourth conjunct). -/
theorem c9_serialization_roundtrips (fw : Firework) (wf : Workflow) (l : Launch)
    (h1 : ¬ "fw_id" ∈ fw.payload.map Prod.fst)
    (h2 : ¬ "state" ∈ fw.payload.map Prod.fst)
    (h3 : ¬ "launches" ∈ fw.payload.map Prod.fst)
    (hids : ∀ kv ∈ wf.id_fw, kv.2.fw_id = kv.1) :
    (Firework.from_dict (sqlite_to_firework (firework_to_sqlite fw)) = .ok fw)
    ∧ (sqlite_to_workflow (workflow_to_sqlite wf) = wf.to_db_dict)
    ∧ (Workflow.construct (wf.id_fw.map Prod.snd)
        (sqlite_to_workflow (workflow_to_sqlite wf)).links
        (sqlite_to_workflow (workflow_to_sqlite wf)).name
        (sqlite_to_workflow (workflow_to_sqlite wf)).metadata
        (sqlite_to_workflow (workflow_to_sqlite wf)).created_on
        (sqlite_to_workflow (workflow_to_sqlite wf)).updated_on
        (some (sqlite_to_workflow (workflow_to_sqlite wf)).fw_states) = wf)
    ∧ (launch_from_record (launch_to_record l) = .ok l) := by
  refine ⟨fw_record_roundtrip fw h1 h2 h3, rfl, ?_, ?_⟩
  · simp only [Workflow.construct, sqlite_to_workflow, workflow_to_sqlite,
      Workflow.to_db_dict, Option.getD_some]
    rw [hydrate_pairs wf.id_fw hids]
  · obtain ⟨s, d, ⟨q⟩, h, i, t, sh, lid, f⟩ := l
    rfl

/-- C9 witness: the round-trips evaluated on concrete entities with nested,
empty and unicode payload content. -/
theorem c9_witness :
    (Firework.from_dict (sqlite_to_firework (firework_to_sqlite
        { fw_id := 3, state := "WAITING", launches := [1, 2],
          payload := [("spec", .obj [("π", .arr [.int 1, .obj []])]),
                      ("note", .str "héllo")] }))
      = .ok { fw_id := 3, state := "WAITING", launches := [1, 2],
              payload := [("spec", .obj [("π", .arr [.int 1, .obj []])]),
                          ("note", .str "héllo")] })
    ∧ (sqlite_to_workflow (workflow_to_sqlite
        { id_fw := [(3, { fw_id := 3, state := "WAITING", launches := [],
                          payload := [] })],
          links := [(3, [])], name := "wf", metadata := .obj [],
          created_on := 0, updated_on := 0, fw_states := [(3, "WAITING")] })
      = Workflow.to_db_dict
        { id_fw := [(3, { fw_id := 3, state := "WAITING", launches := [],
                          payload := [] })],
          links := [(3, [])], name := "wf", metadata := .obj [],
          created_on := 0, updated_on := 0, fw_states := [(3, "WAITING")] })
    ∧ (launch_from_record (launch_to_record
        { state := "RUNNING", launch_dir := "/tmp/λdir", fworker := ⟨.null⟩,
          host := .str "h", ip := .null, trackers := .null,
          state_history := .arr [], launch_id := 4, fw_id := 3 })
      = .ok { state := "RUNNING", launch_dir := "/tmp/λdir", fworker := ⟨.null⟩,
              host := .str "h", ip := .null, trackers := .null,
              state_history := .arr [], launch_id := 4, fw_id := 3 }) := by
  have h := c9_serialization_roundtrips
    { fw_id := 3, state := "WAITING", launches := [1, 2],
      payload := [("spec", .obj [("π", .arr [.int 1, .obj []])]),
                  ("note", .str "héllo")] }
    { id_fw := [(3, { fw_id := 3, state := "WAITING", launches := [],
                      payload := [] })],
      links := [(3, [])], name := "wf", metadata := .obj [],
      created_on := 0, updated_on := 0, fw_states := [(3, "WAITING")] }
    { state := "RUNNING", launch_dir := "/tmp/λdir", fworker := ⟨.null⟩,
      host := .str "h", ip := .null, trackers := .null,
      state_history := .arr [], launch_id := 4, fw_id := 3 }
    (by decide) (by decide) (by decide) (by simp)
  exact ⟨h.1, h.2.1, h.2.2.2⟩

/-! ### C10: ForeachTask -/

theorem dictLookup_dictSet_self {κ β : Type} [DecidableEq κ]
    (l : List (κ × β)) (k : κ) (v : β) :
    dictLookup (dictSet l k v) k = some v := by
  induction l with
  | nil => simp [dictSet, dictLookup]
  | cons kv rest ih =>
    by_cases h : kv.1 = k
    · simp [dictSet, dictLookup, h]
    · simp [dictSet, dictLookup, h, ih]

theorem dictLookup_dictSet_ne {κ β : Type} [DecidableEq κ]
    (l : List (κ × β)) (k k2 : κ) (v : β) (h : k2 ≠ k) :
    dictLookup (dictSet l k v) k2 = dictLookup l k2 := by
  induction l with
  | nil => simp [dictSet, dictLookup, show ¬ (k = k2) from fun he => h he.symm]
  | cons kv rest ih =>
    by_cases hk : kv.1 = k
    · have hk2 : ¬ (k = k2) := fun he => h he.symm
      simp [dictSet, dictLookup, hk, hk2]
    · by_cases hk2 : kv.1 = k2
      · simp [dictSet, dictLookup, hk, hk2, h]
      · simp [dictSet, dictLookup, hk, hk2, ih]

theorem buildDetours_length (t : ForeachTask) (fw_spec : List (String × JValue))
    (key : String) (xs : List JValue) :
    ∀ n, (buildDetours t fw_spec key xs n).length = xs.length := by
  induction xs with
  | nil => intro n; rfl
  | cons x rest ih => intro n; simp [buildDetours, ih]

theorem buildDetours_get (t : ForeachTask) (fw_spec : List (String × JValue))
    (key : String) :
    ∀ (xs : List JValue) (n i : Nat) (x : JValue), xs[i]? = some x →
      (buildDetours t fw_spec key xs n)[i]?
        = some (Firework.construct (singleTaskFor t (n + i))
            (dictSet fw_spec key x) ("ForeachTask " ++ toString (n + i))) := by
  intro xs
  induction xs with
  | nil => intro n i x hx; simp at hx
  | cons y rest ih =>
    intro n i x hx
    cases i with
    | zero =>
      simp only [List.getElem?_cons_zero, Option.some.injEq] at hx
      subst hx
      simp [buildDetours]
    | succ j =>
      simp only [List.getElem?_cons_succ] at hx
      have := ih (n + 1) j x hx
      simp only [buildDetours, List.getElem?_cons_succ]
      rw [this, Nat.add_assoc, Nat.add_comm 1 j]

/-- The spec of a freshly constructed detour node. -/
theorem construct_spec (tasks : JValue) (spec : List (String × JValue))
    (name : String) : (Firework.construct tasks spec name).spec = spec := rfl

/-- C10. When the split parameter is a string naming a spec key that holds a
list, and it occurs among the task inputs: an empty list makes run_task
return a whole-workflow defusal action with no detours (first conjunct);
otherwise run_task returns an action with exactly one detour per list
element and no defusal request, where the i-th detour's spec maps the split
key to the i-th element and agrees with the incoming spec on every other
key (second conjunct). -/
theorem c10_foreach_split (t : ForeachTask) (fw_spec : List (String × JValue))
    (splitKey : String) (xs : List JValue) (i : Nat) (x : JValue) (k : String)
    (hsplit : t.split = .str splitKey)
    (hval : dictLookup fw_spec splitKey = some (.arr xs))
    (hin : inputsContain t.inputs splitKey = true) :
    (xs = [] →
      t.run_task fw_spec
        = .ok { FWAction.empty with defuse_workflow := true, detours := [] })
    ∧ (xs[i]? = some x →
        ∃ a, t.run_task fw_spec = .ok a
          ∧ a.defuse_workflow = false
          ∧ a.detours.length = xs.length
          ∧ ∃ d, a.detours[i]? = some d
              ∧ dictLookup d.spec splitKey = some x
              ∧ (k ≠ splitKey → dictLookup d.spec k = dictLookup fw_spec k)) := by
  constructor
  · intro hnil
    subst hnil
    simp [ForeachTask.run_task, hsplit, hval, hin, Bind.bind, Except.bind,
      FWAction.empty]
  · intro hx
    have hlen : ¬ xs.length < 1 := by
      cases xs with
      | nil => simp at hx
      | cons y rest => simp
    have hrun : t.run_task fw_spec
        = .ok { FWAction.empty with
            detours := buildDetours t fw_spec splitKey xs 0 } := by
      simp [ForeachTask.run_task, hsplit, hval, hin, hlen, Bind.bind, Except.bind]
    refine ⟨_, hrun, rfl, buildDetours_length t fw_spec splitKey xs 0, ?_⟩
    refine ⟨_, buildDetours_get t fw_spec splitKey xs 0 i x hx, ?_, ?_⟩
    · rw [construct_spec]
      exact dictLookup_dictSet_self fw_spec splitKey x
    · intro hk
      rw [construct_spec]
      exact dictLookup_dictSet_ne fw_spec splitKey k x hk

/-- C10 witness: a two-element split list produces two detours whose specs
replace the split key elementwise and keep the other key, and the empty
split list on another spec yields the defusal action. -/
theorem c10_witness :
    ((ForeachTask.run_task
        { function := "m.f", split := .str "s", inputs := .arr [.str "s"],
          outputs := none }
        [("s", .arr []), ("o", .int 7)])
      = .ok { FWAction.empty with defuse_workflow := true, detours := [] })
    ∧ (∃ a, (ForeachTask.run_task
        { function := "m.f", split := .str "s", inputs := .str "s",
          outputs := none }
        [("s", .arr [.int 10, .int 20]), ("o", .int 7)]) = .ok a
        ∧ a.defuse_workflow = false
        ∧ a.detours.length = 2
        ∧ ∃ d, a.detours[1]? = some d
            ∧ dictLookup d.spec "s" = some (.int 20)
            ∧ ("o" ≠ "s" → dictLookup d.spec "o"
                = dictLookup [("s", .arr [.int 10, .int 20]), ("o", .int 7)] "o")) := by
  constructor
  · exact (c10_foreach_split
      { function := "m.f", split := .str "s", inputs := .arr [.str "s"],
        outputs := none }
      [("s", .arr []), ("o", .int 7)] "s" [] 0 .null "o" rfl rfl rfl).1 rfl
  · exact (c10_foreach_split
      { function := "m.f", split := .str "s", inputs := .str "s",
        outputs := none }
      [("s", .arr [.int 10, .int 20]), ("o", .int 7)] "s" [.int 10, .int 20]
      1 (.int 20) "o" rfl rfl rfl).2 rfl

/-! ### C7 and C8: graph insertion -/

/-- The old-to-new id pairs produced by the reassign_all branch of
_upsert_fws on an already-sorted list. -/
def oldNewOf (v : Nat) (l : List Firework) : List (Int × Int) :=
  (renumber v l).map (fun p => (p.1, p.2.fw_id))

/-- The renumbered fireworks produced by the reassign_all branch of
_upsert_fws on an already-sorted list. -/
def renumOf (v : Nat) (l : List Firework) : List Firework :=
  (renumber v l).map Prod.snd

/-- The sorted member list that add_wf hands to _upsert_fws. -/
def sortedMembers (wf : Workflow) : List Firework :=
  sortFws ((markRootsReady wf).id_fw.map Prod.snd)

/-- The workflow as persisted by add_wf: roots readied, ids reassigned. -/
def insertedWf (wf : Workflow) (v : Nat) : Workflow :=
  (markRootsReady wf).reassign_ids (oldNewOf v (sortedMembers wf))

/-- Closed form of the reassign_all branch of _upsert_fws. -/
theorem upsert_true_eq (st : LP) (fws : List Firework) (v : Nat)
    (hv : dictLookup st.meta "next_fw_id" = some v) :
    _upsert_fws st fws true
      = .ok (oldNewOf v (sortFws fws), renumOf v (sortFws fws),
          { st with
            meta := sqlUpdate st.meta "next_fw_id" (v + (sortFws fws).length),
            fireworks := st.fireworks.filter
                (fun r => ¬ r.1 ∈ (renumOf v (sortFws fws)).map Firework.fw_id)
              ++ (renumOf v (sortFws fws)).map firework_to_sqlite }) := by
  simp [_upsert_fws, get_new_fw_id, _get_new_and_increment, hv, oldNewOf,
    renumOf, Bind.bind, Except.bind]

/-- Closed form of add_wf: roots readied, members renumbered from the node
counter, graph payload inserted under the second workflow id handed out, one
mapping row per member. -/
theorem add_wf_eq (st : LP) (wf : Workflow) (v w : Nat)
    (hv : dictLookup st.meta "next_fw_id" = some v)
    (hw : dictLookup st.meta "next_workflow_id" = some w) :
    add_wf st wf true
      = .ok (oldNewOf v (sortedMembers wf),
          { meta := sqlUpdate (sqlUpdate (sqlUpdate st.meta "next_fw_id"
                (v + (sortedMembers wf).length)) "next_workflow_id" (w + 1))
              "next_workflow_id" (w + 2),
            fireworks := st.fireworks.filter
                (fun r => ¬ r.1 ∈ (renumOf v (sortedMembers wf)).map Firework.fw_id)
              ++ (renumOf v (sortedMembers wf)).map firework_to_sqlite,
            workflows := st.workflows ++ [(w + 1, workflow_to_sqlite (insertedWf wf v))],
            mapping := st.mapping
              ++ (insertedWf wf v).id_fw.map (fun kv => (kv.1, w + 1)),
            fireworksStore := st.fireworksStore,
            launchesStore := st.launchesStore,
            workflowsStore := st.workflowsStore }) := by
  have h1 := upsert_true_eq st ((markRootsReady wf).id_fw.map Prod.snd) v hv
  have hne : ("next_workflow_id" : String) ≠ "next_fw_id" := by decide
  have hw1 : dictLookup (sqlUpdate st.meta "next_fw_id"
      (v + (sortedMembers wf).length)) "next_workflow_id" = some w := by
    rw [dictLookup_sqlUpdate_ne _ _ _ _ hne]; exact hw
  have hw2 : dictLookup (sqlUpdate (sqlUpdate st.meta "next_fw_id"
      (v + (sortedMembers wf).length)) "next_workflow_id" (w + 1))
      "next_workflow_id" = some (w + 1) := by
    rw [dictLookup_sqlUpdate_self, hw1]; rfl
  simp only [add_wf, sortedMembers] at *
  rw [h1]
  simp [_get_new_workflow_id, _get_new_and_increment, hw1, hw2, insertedWf,
    sortedMembers, Bind.bind, Except.bind]

/-- Every renumbered firework carries an id at or above the batch start. -/
theorem renumOf_id_lb : ∀ (l : List Firework) (v : Nat),
    ∀ g ∈ renumOf v l, (v : Int) ≤ g.fw_id := by
  intro l
  induction l with
  | nil => intro v g hg; simp [renumOf, renumber] at hg
  | cons fw rest ih =>
    intro v g hg
    simp only [renumOf, renumber, List.map_cons, List.mem_cons] at hg
    rcases hg with hg | hg
    · subst hg; simp
    · have := ih (v + 1) g (by simpa [renumOf] using hg)
      omega

/-- Every id recorded in the old-to-new mapping is at or above the batch
start. -/
theorem oldNewOf_lookup_lb : ∀ (l : List Firework) (v : Nat) (k n : Int),
    dictLookup (oldNewOf v l) k = some n → (v : Int) ≤ n := by
  intro l
  induction l with
  | nil => intro v k n h; simp [oldNewOf, renumber, dictLookup] at h
  | cons fw rest ih =>
    intro v k n h
    simp only [oldNewOf, renumber, List.map_cons, dictLookup] at h
    by_cases he : fw.fw_id = k
    · rw [if_pos he] at h
      injection h with h
      omega
    · rw [if_neg he] at h
      have := ih (v + 1) k n (by simpa [oldNewOf] using h)
      omega

/-- Every member of the batch has an entry in the old-to-new mapping. -/
theorem oldNewOf_lookup_total : ∀ (l : List Firework) (v : Nat) (fw : Firework),
    fw ∈ l → ∃ n, dictLookup (oldNewOf v l) fw.fw_id = some n := by
  intro l
  induction l with
  | nil => intro v fw h; simp at h
  | cons g rest ih =>
    intro v fw h
    by_cases he : g.fw_id = fw.fw_id
    · exact ⟨(v : Int), by simp [oldNewOf, renumber, dictLookup, he]⟩
    · have hfw : fw ∈ rest := by
        rcases List.mem_cons.mp h with h | h
        · exact absurd (h ▸ rfl) he
        · exact h
      obtain ⟨n, hn⟩ := ih (v + 1) fw hfw
      exact ⟨n, by simpa [oldNewOf, renumber, dictLookup, he] using hn⟩

/-- Looking up a member's new id in the mapping pins down exactly one
renumbered firework: the member itself, renumbered, at or above the batch
start. -/
theorem renum_lookup_filter : ∀ (l : List Firework) (v : Nat) (fw : Firework)
    (n : Int),
    (l.map Firework.fw_id).Nodup → fw ∈ l →
    dictLookup (oldNewOf v l) fw.fw_id = some n →
    (renumOf v l).filter (fun g => g.fw_id == n) = [{ fw with fw_id := n }]
      ∧ (v : Int) ≤ n := by
  intro l
  induction l with
  | nil => intro v fw n _ h; simp at h
  | cons g rest ih =>
    intro v fw n hnd hmem hlook
    simp only [List.map_cons, List.nodup_cons] at hnd
    simp only [oldNewOf, renumber, List.map_cons, dictLookup] at hlook
    by_cases he : g.fw_id = fw.fw_id
    · rw [if_pos he] at hlook
      injection hlook with hn
      have hfw : fw = g := by
        rcases List.mem_cons.mp hmem with h | h
        · exact h
        · exact absurd (he ▸ List.mem_map_of_mem Firework.fw_id h) hnd.1
      subst hfw
      constructor
      · simp only [renumOf, renumber, List.map_cons, List.filter_cons]
        rw [← hn]
        simp only [beq_self_eq_true, if_pos]
        have : (renumOf (v + 1) rest).filter (fun g2 => g2.fw_id == (v : Int)) = [] := by
          rw [List.filter_eq_nil_iff]
          intro g2 hg2
          have := renumOf_id_lb rest (v + 1) g2 hg2
          simp only [beq_iff_eq]
          omega
        simp only [renumOf] at this
        simp [this]
      · omega
    · rw [if_neg he] at hlook
      have hfw : fw ∈ rest := by
        rcases List.mem_cons.mp hmem with h | h
        · exact absurd (h ▸ rfl) he
        · exact h
      have hrec := ih (v + 1) fw n hnd.2 hfw (by simpa [oldNewOf] using hlook)
      constructor
      · simp only [renumOf, renumber, List.map_cons, List.filter_cons]
        have hne2 : ¬ (({ g with fw_id := (v : Int) } : Firework).fw_id == n) = true := by
          simp only [beq_iff_eq]
          have := hrec.2
          intro hcon
          omega
        rw [if_neg hne2]
        have := hrec.1
        simpa [renumOf] using this
      · have := hrec.2; omega

/-- Two keys mapped to the same new id are the same key. -/
theorem oldNewOf_lookup_inj : ∀ (l : List Firework) (v : Nat) (k1 k2 n : Int),
    dictLookup (oldNewOf v l) k1 = some n →
    dictLookup (oldNewOf v l) k2 = some n → k1 = k2 := by
  intro l
  induction l with
  | nil => intro v k1 k2 n h1 _; simp [oldNewOf, renumber, dictLookup] at h1
  | cons g rest ih =>
    intro v k1 k2 n h1 h2
    simp only [oldNewOf, renumber, List.map_cons, dictLookup] at h1 h2
    by_cases he1 : g.fw_id = k1
    · rw [if_pos he1] at h1
      injection h1 with h1
      by_cases he2 : g.fw_id = k2
      · rw [← he1, he2]
      · rw [if_neg he2] at h2
        have := oldNewOf_lookup_lb rest (v + 1) k2 n (by simpa [oldNewOf] using h2)
        omega
    · rw [if_neg he1] at h1
      by_cases he2 : g.fw_id = k2
      · rw [if_pos he2] at h2
        injection h2 with h2
        have := oldNewOf_lookup_lb rest (v + 1) k1 n (by simpa [oldNewOf] using h1)
        omega
      · rw [if_neg he2] at h2
        exact ih (v + 1) k1 k2 n (by simpa [oldNewOf] using h1)
          (by simpa [oldNewOf] using h2)

/-- find? returns the sole survivor of a filter. -/
theorem find?_of_filter_singleton {α : Type} (p : α → Bool) :
    ∀ (l : List α) (a : α), l.filter p = [a] → l.find? p = some a := by
  intro l
  induction l with
  | nil => intro a h; simp at h
  | cons b rest ih =>
    intro a h
    cases hp : p b with
    | true =>
      rw [List.filter_cons, if_pos hp] at h
      injection h with h1 h2
      rw [List.find?_cons, hp, h1]
    | false =>
      rw [List.filter_cons, if_neg (by simp [hp])] at h
      rw [List.find?_cons, hp]
      exact ih a h

/-- Pointwise success propagates through the hydration loop. -/
theorem exceptMapM_ok {α β : Type} (f : α → Except PyError β) (g : α → β) :
    ∀ l : List α, (∀ a ∈ l, f a = .ok (g a)) →
      exceptMapM f l = .ok (l.map g) := by
  intro l
  induction l with
  | nil => intro _; rfl
  | cons a rest ih =>
    intro h
    have ha := h a (by simp)
    have hrest := ih (fun x hx => h x (by simp [hx]))
    simp [exceptMapM, ha, hrest, Bind.bind, Except.bind]

/-- In a key-unique dict, membership determines the lookup. -/
theorem dictLookup_of_mem_nodup {κ β : Type} [DecidableEq κ] :
    ∀ (l : List (κ × β)) (kv : κ × β),
      (l.map Prod.fst).Nodup → kv ∈ l → dictLookup l kv.1 = some kv.2 := by
  intro l
  induction l with
  | nil => intro kv _ h; simp at h
  | cons b rest ih =>
    intro kv hnd hmem
    simp only [List.map_cons, List.nodup_cons] at hnd
    rcases List.mem_cons.mp hmem with h | h
    · subst h; simp [dictLookup]
    · have hne : ¬ b.1 = kv.1 := by
        intro he
        exact hnd.1 (he ▸ List.mem_map_of_mem Prod.fst h)
      simp only [dictLookup, if_neg hne]
      exact ih kv hnd.2 h

/-- Marking roots READY leaves the member keys unchanged. -/
theorem markRoots_keys (wf : Workflow) :
    (markRootsReady wf).id_fw.map Prod.fst = wf.id_fw.map Prod.fst := by
  simp only [markRootsReady, List.map_map]
  apply List.map_congr_left
  intro kv _
  by_cases h : kv.1 ∈ wf.root_fw_ids <;> simp [h]

/-- Marking roots READY keeps each member's id equal to its key. -/
theorem markRoots_ids (wf : Workflow)
    (hids : ∀ kv ∈ wf.id_fw, kv.2.fw_id = kv.1) :
    ∀ kv ∈ (markRootsReady wf).id_fw, kv.2.fw_id = kv.1 := by
  intro kv hkv
  simp only [markRootsReady, List.mem_map] at hkv
  obtain ⟨kv0, hkv0, hkv0e⟩ := hkv
  by_cases h : kv0.1 ∈ wf.root_fw_ids
  · rw [if_pos h] at hkv0e
    rw [← hkv0e]
    exact hids kv0 hkv0
  · rw [if_neg h] at hkv0e
    rw [← hkv0e]
    exact hids kv0 hkv0

/-- The ids of the member list agree with the keys. -/
theorem members_ids_eq_keys (l : List (Int × Firework))
    (hids : ∀ kv ∈ l, kv.2.fw_id = kv.1) :
    (l.map Prod.snd).map Firework.fw_id = l.map Prod.fst := by
  simp only [List.map_map]
  exact List.map_congr_left (fun kv hkv => hids kv hkv)

/-- C7. Submitting a fresh workflow (every node WAITING, keys unique and
consistent) persists every root member with state READY and every non-root
member with state WAITING: for each member key o there is exactly one row
under its newly assigned id n, and that row's state column is READY exactly
when o is a root. -/
theorem c7_add_wf_initial_states (st : LP) (wf : Workflow) (o : Int) (v w : Nat)
    (hv : dictLookup st.meta "next_fw_id" = some v)
    (hw : dictLookup st.meta "next_workflow_id" = some w)
    (hW : ∀ kv ∈ wf.id_fw, kv.2.state = "WAITING")
    (hkeys : (wf.id_fw.map Prod.fst).Nodup)
    (hids : ∀ kv ∈ wf.id_fw, kv.2.fw_id = kv.1)
    (ho : o ∈ wf.id_fw.map Prod.fst) :
    ∃ pr, add_wf st wf true = .ok pr ∧
      ∃ n, dictLookup pr.1 o = some n ∧
        (pr.2.fireworks.filter (fun r => r.1 == n)).map (fun r => r.2.1)
          = [some (if o ∈ wf.root_fw_ids then "READY" else "WAITING")] := by
  refine ⟨_, add_wf_eq st wf v w hv hw, ?_⟩
  -- the member at key o, after root marking
  obtain ⟨kv0, hkv0, hkv0e⟩ := List.mem_map.mp ho
  set fwo : Firework :=
    if kv0.1 ∈ wf.root_fw_ids then { kv0.2 with state := "READY" } else kv0.2 with hfwo
  have hpair : (if kv0.1 ∈ wf.root_fw_ids
      then (kv0.1, { kv0.2 with state := "READY" }) else kv0) = (kv0.1, fwo) := by
    by_cases h : kv0.1 ∈ wf.root_fw_ids
    · simp [hfwo, h]
    · simp [hfwo, h]
  have hmemM : (kv0.1, fwo) ∈ (markRootsReady wf).id_fw := by
    rw [← hpair]
    exact List.mem_map_of_mem _ hkv0
  have hfwoid : fwo.fw_id = o := by
    rw [hfwo]
    by_cases h : kv0.1 ∈ wf.root_fw_ids
    · simp only [if_pos h]
      rw [show ({ kv0.2 with state := "READY" } : Firework).fw_id = kv0.2.fw_id from rfl,
        hids kv0 hkv0, hkv0e]
    · simp only [if_neg h]
      rw [hids kv0 hkv0, hkv0e]
  have hfwostate : fwo.state = if o ∈ wf.root_fw_ids then "READY" else "WAITING" := by
    rw [hfwo, ← hkv0e]
    by_cases h : kv0.1 ∈ wf.root_fw_ids
    · simp [h]
    · simp [h, hW kv0 hkv0]
  -- fwo is among the sorted members, whose ids are nodup
  have hmemList : fwo ∈ (markRootsReady wf).id_fw.map Prod.snd :=
    List.mem_map_of_mem _ hmemM
  have hperm := List.perm_insertionSort
    (fun a b : Firework => a.fw_id ≤ b.fw_id) ((markRootsReady wf).id_fw.map Prod.snd)
  have hmemS : fwo ∈ sortedMembers wf := by
    rw [sortedMembers, sortFws]
    exact hperm.mem_iff.mpr hmemList
  have hndS : ((sortedMembers wf).map Firework.fw_id).Nodup := by
    have hperm2 := hperm.map Firework.fw_id
    rw [sortedMembers, sortFws]
    rw [hperm2.nodup_iff]
    rw [members_ids_eq_keys _ (markRoots_ids wf hids), markRoots_keys]
    exact hkeys
  -- the assigned id
  obtain ⟨n, hn⟩ := oldNewOf_lookup_total (sortedMembers wf) v fwo hmemS
  rw [hfwoid] at hn
  refine ⟨n, hn, ?_⟩
  have hmain := renum_lookup_filter (sortedMembers wf) v fwo n hndS hmemS
    (by rw [hfwoid]; exact hn)
  -- the new id is used, so the delete removed any stale row under it
  have husedn : n ∈ (renumOf v (sortedMembers wf)).map Firework.fw_id := by
    have : ({ fwo with fw_id := n } : Firework) ∈ renumOf v (sortedMembers wf) := by
      have := hmain.1
      have hx : ({ fwo with fw_id := n } : Firework)
          ∈ (renumOf v (sortedMembers wf)).filter (fun g => g.fw_id == n) := by
        rw [this]; simp
      exact List.mem_of_mem_filter hx
    simpa using ⟨_, this, rfl⟩
  rw [List.filter_append]
  have hA : (st.fireworks.filter
      (fun r => ¬ r.1 ∈ (renumOf v (sortedMembers wf)).map Firework.fw_id)).filter
      (fun r => r.1 == n) = [] := by
    rw [List.filter_filter, List.filter_eq_nil_iff]
    intro r _
    simp only [Bool.and_eq_true, beq_iff_eq, decide_eq_true_eq, not_and]
    intro hr
    simp [hr, husedn]
  have hB : ((renumOf v (sortedMembers wf)).map firework_to_sqlite).filter
      (fun r => r.1 == n)
      = [firework_to_sqlite { fwo with fw_id := n }] := by
    rw [List.filter_map]
    have hcomp : ((fun r : Int × Option String × List (String × JValue) => r.1 == n)
        ∘ firework_to_sqlite) = fun g : Firework => g.fw_id == n := by
      funext g; rfl
    rw [hcomp, hmain.1]
    rfl
  rw [hA, hB]
  simp only [List.nil_append, List.map_cons, List.map_nil]
  rw [show (firework_to_sqlite { fwo with fw_id := n }).2.1
      = some ({ fwo with fw_id := n } : Firework).state from rfl]
  rw [show ({ fwo with fw_id := n } : Firework).state = fwo.state from rfl, hfwostate]

/-- The 3-node linear graph A(1) → B(2) → C(3), freshly built: every node
WAITING. -/
def wfLinear : Workflow :=
  { id_fw := [(1, { fw_id := 1, state := "WAITING", launches := [], payload := [] }),
              (2, { fw_id := 2, state := "WAITING", launches := [], payload := [] }),
              (3, { fw_id := 3, state := "WAITING", launches := [], payload := [] })],
    links := [(1, [2]), (2, [3]), (3, [])],
    name := "linear", metadata := .null, created_on := 0, updated_on := 0,
    fw_states := [(1, "WAITING"), (2, "WAITING"), (3, "WAITING")] }

/-- C7 witness: submitting the linear graph to a freshly reset store stores
the root READY and both descendants WAITING, one row each. -/
theorem c7_witness :
    (∃ pr, add_wf (reset lpEmpty) wfLinear true = .ok pr ∧
      ∃ n, dictLookup pr.1 1 = some n ∧
        (pr.2.fireworks.filter (fun r => r.1 == n)).map (fun r => r.2.1)
          = [some "READY"])
    ∧ (∃ pr, add_wf (reset lpEmpty) wfLinear true = .ok pr ∧
        ∃ n, dictLookup pr.1 2 = some n ∧
          (pr.2.fireworks.filter (fun r => r.1 == n)).map (fun r => r.2.1)
            = [some "WAITING"])
    ∧ (∃ pr, add_wf (reset lpEmpty) wfLinear true = .ok pr ∧
        ∃ n, dictLookup pr.1 3 = some n ∧
          (pr.2.fireworks.filter (fun r => r.1 == n)).map (fun r => r.2.1)
            = [some "WAITING"]) := by
  refine ⟨?_, ?_, ?_⟩
  · exact c7_add_wf_initial_states (reset lpEmpty) wfLinear 1 1 1 rfl rfl
      (by decide) (by decide) (by decide) (by decide)
  · exact c7_add_wf_initial_states (reset lpEmpty) wfLinear 2 1 1 rfl rfl
      (by decide) (by decide) (by decide) (by decide)
  · exact c7_add_wf_initial_states (reset lpEmpty) wfLinear 3 1 1 rfl rfl
      (by decide) (by decide) (by decide) (by decide)

/-- find? skips a prefix on which the predicate fails. -/
theorem find?_append_right {α : Type} (p : α → Bool) :
    ∀ (A B : List α), (∀ a ∈ A, p a = false) → (A ++ B).find? p = B.find? p := by
  intro A
  induction A with
  | nil => intro B _; rfl
  | cons a rest ih =>
    intro B h
    have ha := h a (by simp)
    simp only [List.cons_append, List.find?_cons, ha]
    exact ih B (fun x hx => h x (by simp [hx]))

/-- In a key-unique dict, filtering by a member's key isolates that member. -/
theorem filter_key_singleton {κ β : Type} [DecidableEq κ] :
    ∀ (l : List (κ × β)) (kv : κ × β),
      (l.map Prod.fst).Nodup → kv ∈ l →
      l.filter (fun x => x.1 == kv.1) = [kv] := by
  intro l
  induction l with
  | nil => intro kv _ h; simp at h
  | cons b rest ih =>
    intro kv hnd hmem
    simp only [List.map_cons, List.nodup_cons] at hnd
    rcases List.mem_cons.mp hmem with h | h
    · subst h
      simp only [List.filter_cons, beq_self_eq_true, if_pos]
      have : rest.filter (fun x => x.1 == kv.1) = [] := by
        rw [List.filter_eq_nil_iff]
        intro x hx
        simp only [beq_iff_eq]
        intro he
        exact hnd.1 (he ▸ List.mem_map_of_mem Prod.fst hx)
      simp [this]
    · have hne : ¬ (b.1 == kv.1) = true := by
        simp only [beq_iff_eq]
        intro he
        exact hnd.1 (he ▸ List.mem_map_of_mem Prod.fst h)
      simp only [List.filter_cons, hne, if_neg, Bool.false_eq_true,
        not_false_eq_true]
      exact ih kv hnd.2 h

/-- Root marking keeps the cached state summary aligned with the nodes. -/
theorem markRoots_states (wf : Workflow)
    (h4 : wf.fw_states = wf.id_fw.map (fun kv => (kv.1, kv.2.state))) :
    (markRootsReady wf).fw_states
      = (markRootsReady wf).id_fw.map (fun kv => (kv.1, kv.2.state)) := by
  simp only [markRootsReady, h4, List.map_map]
  apply List.map_congr_left
  intro kv _
  by_cases h : kv.1 ∈ wf.root_fw_ids <;> simp [h]

/-- Id reassignment keeps the cached state summary aligned with the nodes. -/
theorem reassign_states (wf : Workflow) (m : List (Int × Int))
    (h4 : wf.fw_states = wf.id_fw.map (fun kv => (kv.1, kv.2.state))) :
    (wf.reassign_ids m).fw_states
      = (wf.reassign_ids m).id_fw.map (fun kv => (kv.1, kv.2.state)) := by
  simp only [Workflow.reassign_ids, h4, List.map_map]
  apply List.map_congr_left
  intro kv _
  rfl

/-- After id reassignment every member carries its key as id. -/
theorem reassign_ids_consistent (wf : Workflow) (m : List (Int × Int)) :
    ∀ kv ∈ (wf.reassign_ids m).id_fw, kv.2.fw_id = kv.1 := by
  intro kv hkv
  simp only [Workflow.reassign_ids, List.mem_map] at hkv
  obtain ⟨kv0, _, hkv0e⟩ := hkv
  rw [← hkv0e]

/-- Every member of the root-marked workflow belongs to the sorted list
handed to the upsert. -/
theorem member_mem_sorted (wf : Workflow) (kv : Int × Firework)
    (h : kv ∈ (markRootsReady wf).id_fw) : kv.2 ∈ sortedMembers wf := by
  have hperm := List.perm_insertionSort (fun a b : Firework => a.fw_id ≤ b.fw_id)
    ((markRootsReady wf).id_fw.map Prod.snd)
  rw [sortedMembers, sortFws]
  exact hperm.mem_iff.mpr (List.mem_map_of_mem Prod.snd h)

/-- Every member of the inserted workflow is an original member renumbered
to its key, and its key is recorded in the old-to-new mapping. -/
theorem insertedWf_entry (wf : Workflow) (v : Nat)
    (hids : ∀ kv ∈ wf.id_fw, kv.2.fw_id = kv.1) :
    ∀ kv ∈ (insertedWf wf v).id_fw,
      ∃ fw0, fw0 ∈ sortedMembers wf
        ∧ dictLookup (oldNewOf v (sortedMembers wf)) fw0.fw_id = some kv.1
        ∧ kv.2 = { fw0 with fw_id := kv.1 }
        ∧ ∃ kvp ∈ wf.id_fw, fw0.payload = kvp.2.payload := by
  intro kv hkv
  simp only [insertedWf, Workflow.reassign_ids, List.mem_map] at hkv
  obtain ⟨kv0, hkv0, hkv0e⟩ := hkv
  have hmemS : kv0.2 ∈ sortedMembers wf := member_mem_sorted wf kv0 hkv0
  have hid0 : kv0.2.fw_id = kv0.1 := markRoots_ids wf hids kv0 hkv0
  obtain ⟨n, hn⟩ := oldNewOf_lookup_total (sortedMembers wf) v kv0.2 hmemS
  have happly : applyMap (oldNewOf v (sortedMembers wf)) kv0.1 = n := by
    rw [applyMap, ← hid0, hn]; rfl
  have hkey : kv.1 = n := by rw [← hkv0e, happly]
  refine ⟨kv0.2, hmemS, ?_, ?_, ?_⟩
  · rw [hkey]
    exact hn
  · rw [← hkv0e]
  · simp only [markRootsReady, List.mem_map] at hkv0
    obtain ⟨kvw, hkvw, hkvwe⟩ := hkv0
    refine ⟨kvw, hkvw, ?_⟩
    rw [← hkvwe]
    by_cases h : kvw.1 ∈ wf.root_fw_ids <;> simp [h]

/-- Every member key of the root-marked workflow has an assigned new id. -/
theorem markedKeys_lookup_total (wf : Workflow) (v : Nat)
    (hids : ∀ kv ∈ wf.id_fw, kv.2.fw_id = kv.1) :
    ∀ k ∈ (markRootsReady wf).id_fw.map Prod.fst,
      ∃ n, dictLookup (oldNewOf v (sortedMembers wf)) k = some n := by
  intro k hk
  obtain ⟨kv, hkv, hkve⟩ := List.mem_map.mp hk
  have hmemS : kv.2 ∈ sortedMembers wf := member_mem_sorted wf kv hkv
  have hid := markRoots_ids wf hids kv hkv
  obtain ⟨n, hn⟩ := oldNewOf_lookup_total _ v kv.2 hmemS
  exact ⟨n, by rw [← hkve, ← hid]; exact hn⟩

/-- The keys of the inserted workflow (the assigned new ids) are unique. -/
theorem insertedWf_keys_nodup (wf : Workflow) (v : Nat)
    (hkeys : (wf.id_fw.map Prod.fst).Nodup)
    (hids : ∀ kv ∈ wf.id_fw, kv.2.fw_id = kv.1) :
    ((insertedWf wf v).id_fw.map Prod.fst).Nodup := by
  have hkeysM : ((markRootsReady wf).id_fw.map Prod.fst).Nodup := by
    rw [markRoots_keys]; exact hkeys
  have hrw : (insertedWf wf v).id_fw.map Prod.fst
      = ((markRootsReady wf).id_fw.map Prod.fst).map
          (applyMap (oldNewOf v (sortedMembers wf))) := by
    simp [insertedWf, Workflow.reassign_ids, List.map_map]
  rw [hrw]
  apply List.Nodup.map_on ?_ hkeysM
  intro x hx y hy hxy
  obtain ⟨nx, hnx⟩ := markedKeys_lookup_total wf v hids x hx
  obtain ⟨ny, hny⟩ := markedKeys_lookup_total wf v hids y hy
  have hax : applyMap (oldNewOf v (sortedMembers wf)) x = nx := by
    rw [applyMap, hnx]; rfl
  have hay : applyMap (oldNewOf v (sortedMembers wf)) y = ny := by
    rw [applyMap, hny]; rfl
  rw [hax, hay] at hxy
  exact oldNewOf_lookup_inj _ v x y nx hnx (hxy ▸ hny)

/-- The ids of the sorted member list are unique. -/
theorem sortedMembers_ids_nodup (wf : Workflow)
    (hkeys : (wf.id_fw.map Prod.fst).Nodup)
    (hids : ∀ kv ∈ wf.id_fw, kv.2.fw_id = kv.1) :
    ((sortedMembers wf).map Firework.fw_id).Nodup := by
  have hperm := List.perm_insertionSort (fun a b : Firework => a.fw_id ≤ b.fw_id)
    ((markRootsReady wf).id_fw.map Prod.snd)
  rw [sortedMembers, sortFws, (hperm.map Firework.fw_id).nodup_iff,
    members_ids_eq_keys _ (markRoots_ids wf hids), markRoots_keys]
  exact hkeys

/-- After the insertion, the first table row under an assigned id is the
member renumbered to that id, whatever rows were there before. -/
theorem inserted_row_find (preFw : List (Int × Option String × List (String × JValue)))
    (wf : Workflow) (v : Nat) (fw0 : Firework) (nid : Int)
    (hndS : ((sortedMembers wf).map Firework.fw_id).Nodup)
    (hfw0 : fw0 ∈ sortedMembers wf)
    (hlook : dictLookup (oldNewOf v (sortedMembers wf)) fw0.fw_id = some nid) :
    (preFw.filter
        (fun r => ¬ r.1 ∈ (renumOf v (sortedMembers wf)).map Firework.fw_id)
      ++ (renumOf v (sortedMembers wf)).map firework_to_sqlite).find?
        (fun r => r.1 == nid)
      = some (firework_to_sqlite { fw0 with fw_id := nid }) := by
  have hmain := renum_lookup_filter (sortedMembers wf) v fw0 nid hndS hfw0 hlook
  have hused : nid ∈ (renumOf v (sortedMembers wf)).map Firework.fw_id := by
    have hx : ({ fw0 with fw_id := nid } : Firework)
        ∈ (renumOf v (sortedMembers wf)).filter (fun g => g.fw_id == nid) := by
      rw [hmain.1]; simp
    exact (by simpa using ⟨_, List.mem_of_mem_filter hx, rfl⟩)
  rw [find?_append_right]
  · apply find?_of_filter_singleton
    rw [List.filter_map]
    have hcomp : ((fun r : Int × Option String × List (String × JValue) => r.1 == nid)
        ∘ firework_to_sqlite) = fun g : Firework => g.fw_id == nid := by
      funext g; rfl
    rw [hcomp, hmain.1]
    rfl
  · intro r hr
    have hm := List.mem_filter.mp hr
    simp only [decide_eq_true_eq] at hm
    simp only [beq_eq_false_iff_ne, ne_eq]
    intro he
    exact hm.2 (he ▸ hused)

/-- Every member of the inserted workflow hydrates back from the store to
itself. -/
theorem inserted_get_fw_by_id (wf : Workflow) (v : Nat) (st2 : LP)
    (preFw : List (Int × Option String × List (String × JValue)))
    (hkeys : (wf.id_fw.map Prod.fst).Nodup)
    (hids : ∀ kv ∈ wf.id_fw, kv.2.fw_id = kv.1)
    (hpay : ∀ kv ∈ wf.id_fw, ¬ "fw_id" ∈ kv.2.payload.map Prod.fst
      ∧ ¬ "state" ∈ kv.2.payload.map Prod.fst
      ∧ ¬ "launches" ∈ kv.2.payload.map Prod.fst)
    (hf2 : st2.fireworks
      = preFw.filter
          (fun r => ¬ r.1 ∈ (renumOf v (sortedMembers wf)).map Firework.fw_id)
        ++ (renumOf v (sortedMembers wf)).map firework_to_sqlite) :
    ∀ kv ∈ (insertedWf wf v).id_fw, get_fw_by_id st2 kv.1 = .ok kv.2 := by
  intro kv hkv
  obtain ⟨fw0, hfw0S, hlook, hval, kvp, hkvp, hpayload⟩ :=
    insertedWf_entry wf v hids kv hkv
  have hndS := sortedMembers_ids_nodup wf hkeys hids
  have hfind := inserted_row_find preFw wf v fw0 kv.1 hndS hfw0S hlook
  have hdict : get_fw_dict_by_id st2 kv.1
      = .ok (sqlite_to_firework (firework_to_sqlite { fw0 with fw_id := kv.1 })) := by
    rw [get_fw_dict_by_id, hf2, hfind]
  have hp := hpay kvp hkvp
  have hpeq : ({ fw0 with fw_id := kv.1 } : Firework).payload = kvp.2.payload := hpayload
  have hrt := fw_record_roundtrip { fw0 with fw_id := kv.1 }
    (by rw [hpeq]; exact hp.1) (by rw [hpeq]; exact hp.2.1)
    (by rw [hpeq]; exact hp.2.2)
  rw [get_fw_by_id, hval]
  simp [hdict, hrt, Bind.bind, Except.bind]

/-- C8. After a successful graph insertion on a store whose existing
mapping rows and workflow ids cannot collide with the freshly allocated
ones, each member node id has exactly one membership row, pointing at the
workflow id under which the graph payload was stored, and resolving any
member id through get_wf_by_fw_id returns that graph. -/
theorem c8_membership_index (st : LP) (wf : Workflow) (o : Int) (v w : Nat)
    (hv : dictLookup st.meta "next_fw_id" = some v)
    (hw : dictLookup st.meta "next_workflow_id" = some w)
    (hkeys : (wf.id_fw.map Prod.fst).Nodup)
    (hids : ∀ kv ∈ wf.id_fw, kv.2.fw_id = kv.1)
    (h4 : wf.fw_states = wf.id_fw.map (fun kv => (kv.1, kv.2.state)))
    (hpay : ∀ kv ∈ wf.id_fw, ¬ "fw_id" ∈ kv.2.payload.map Prod.fst
      ∧ ¬ "state" ∈ kv.2.payload.map Prod.fst
      ∧ ¬ "launches" ∈ kv.2.payload.map Prod.fst)
    (hmapfresh : ∀ row ∈ st.mapping, (row.1 : Int) < (v : Int))
    (hwffresh : ∀ row ∈ st.workflows, row.1 ≠ w + 1)
    (ho : o ∈ wf.id_fw.map Prod.fst) :
    ∃ pr, add_wf st wf true = .ok pr ∧
      ∃ n, dictLookup pr.1 o = some n ∧
        pr.2.mapping.filter (fun row => row.1 == n) = [(n, w + 1)] ∧
        pr.2.workflows.find? (fun row => row.1 == w + 1)
          = some (w + 1, workflow_to_sqlite (insertedWf wf v)) ∧
        get_wf_by_fw_id pr.2 n = .ok (insertedWf wf v) := by
  refine ⟨_, add_wf_eq st wf v w hv hw, ?_⟩
  have hoM : o ∈ (markRootsReady wf).id_fw.map Prod.fst := by
    rw [markRoots_keys]; exact ho
  obtain ⟨n, hn⟩ := markedKeys_lookup_total wf v hids o hoM
  refine ⟨n, hn, ?_⟩
  have hnlb : (v : Int) ≤ n := oldNewOf_lookup_lb (sortedMembers wf) v o n hn
  have hnodupN := insertedWf_keys_nodup wf v hkeys hids
  -- the inserted entry under key n
  obtain ⟨kvo, hkvo, hkvoe⟩ := List.mem_map.mp hoM
  have hkvo' : (o, kvo.2) ∈ (markRootsReady wf).id_fw := by
    have : (o, kvo.2) = kvo := by rw [← hkvoe]
    rw [this]; exact hkvo
  have happn : applyMap (oldNewOf v (sortedMembers wf)) o = n := by
    rw [applyMap, hn]; rfl
  have hmemN : (n, { kvo.2 with fw_id := n }) ∈ (insertedWf wf v).id_fw := by
    have := List.mem_map_of_mem
      (fun kv : Int × Firework =>
        (applyMap (oldNewOf v (sortedMembers wf)) kv.1,
         { kv.2 with fw_id := applyMap (oldNewOf v (sortedMembers wf)) kv.1 }))
      hkvo'
    simpa [insertedWf, Workflow.reassign_ids, happn] using this
  -- conjunct 1: the membership rows under n
  have hfilterA : (st.mapping.filter (fun row => row.1 == n)) = [] := by
    rw [List.filter_eq_nil_iff]
    intro r hr
    have := hmapfresh r hr
    simp only [beq_iff_eq]
    omega
  have hfilterB : ((insertedWf wf v).id_fw.map (fun kv => (kv.1, w + 1))).filter
      (fun row => row.1 == n) = [(n, w + 1)] := by
    rw [List.filter_map]
    have hcomp : ((fun row : Int × Nat => row.1 == n)
        ∘ (fun kv : Int × Firework => (kv.1, w + 1)))
        = fun kv : Int × Firework => kv.1 == n := by
      funext kv; rfl
    rw [hcomp]
    have := filter_key_singleton (insertedWf wf v).id_fw
      (n, { kvo.2 with fw_id := n }) hnodupN hmemN
    simp only at this
    rw [this]
    rfl
  have hmapfilter :
      ((st.mapping ++ (insertedWf wf v).id_fw.map (fun kv => (kv.1, w + 1))).filter
        (fun row => row.1 == n)) = [(n, w + 1)] := by
    rw [List.filter_append, hfilterA, hfilterB, List.nil_append]
  refine ⟨hmapfilter, ?_, ?_⟩
  -- conjunct 2: the graph payload sits under w + 1
  · rw [find?_append_right]
    · simp [List.find?]
    · intro r hr
      have := hwffresh r hr
      simp only [beq_eq_false_iff_ne, ne_eq]
      exact this
  -- conjunct 3: resolution returns the inserted graph
  · have hmapfind :
        ((st.mapping ++ (insertedWf wf v).id_fw.map (fun kv => (kv.1, w + 1))).find?
          (fun row => row.1 == n)) = some (n, w + 1) :=
      find?_of_filter_singleton _ _ _ hmapfilter
    have hwffind :
        ((st.workflows ++ [(w + 1, workflow_to_sqlite (insertedWf wf v))]).find?
          (fun row => row.1 == w + 1))
          = some (w + 1, workflow_to_sqlite (insertedWf wf v)) := by
      rw [find?_append_right]
      · simp [List.find?]
      · intro r hr
        have := hwffresh r hr
        simp only [beq_eq_false_iff_ne, ne_eq]
        exact this
    set st2 : LP :=
      { meta := sqlUpdate (sqlUpdate (sqlUpdate st.meta "next_fw_id"
            (v + (sortedMembers wf).length)) "next_workflow_id" (w + 1))
          "next_workflow_id" (w + 2),
        fireworks := st.fireworks.filter
            (fun r => ¬ r.1 ∈ (renumOf v (sortedMembers wf)).map Firework.fw_id)
          ++ (renumOf v (sortedMembers wf)).map firework_to_sqlite,
        workflows := st.workflows ++ [(w + 1, workflow_to_sqlite (insertedWf wf v))],
        mapping := st.mapping
          ++ (insertedWf wf v).id_fw.map (fun kv => (kv.1, w + 1)),
        fireworksStore := st.fireworksStore,
        launchesStore := st.launchesStore,
        workflowsStore := st.workflowsStore } with hst2
    have hgetfw := inserted_get_fw_by_id wf v st2 st.fireworks hkeys hids hpay rfl
    have hidc : ∀ kv ∈ (insertedWf wf v).id_fw, kv.2.fw_id = kv.1 := by
      intro kv hkv
      exact reassign_ids_consistent (markRootsReady wf) _ kv hkv
    have hg : ∀ a ∈ (insertedWf wf v).id_fw.map Prod.fst,
        get_fw_by_id st2 a
          = .ok ((dictLookup (insertedWf wf v).id_fw a).getD
              { fw_id := 0, state := "", launches := [], payload := [] }) := by
      intro a ha
      obtain ⟨kv, hkv, hkve⟩ := List.mem_map.mp ha
      rw [← hkve, dictLookup_of_mem_nodup _ kv hnodupN hkv]
      exact hgetfw kv hkv
    have hhydr : exceptMapM (get_fw_by_id st2) ((insertedWf wf v).id_fw.map Prod.fst)
        = .ok ((insertedWf wf v).id_fw.map Prod.snd) := by
      rw [exceptMapM_ok (get_fw_by_id st2) _ _ hg]
      congr 1
      rw [List.map_map]
      apply List.map_congr_left
      intro kv hkv
      simp only [Function.comp_apply]
      rw [dictLookup_of_mem_nodup _ kv hnodupN hkv]
      rfl
    have h4wf2 : (insertedWf wf v).fw_states
        = (insertedWf wf v).id_fw.map (fun kv => (kv.1, kv.2.state)) :=
      reassign_states (markRootsReady wf) _ (markRoots_states wf h4)
    have hcons : Workflow.construct ((insertedWf wf v).id_fw.map Prod.snd)
        (insertedWf wf v).links (insertedWf wf v).name (insertedWf wf v).metadata
        (insertedWf wf v).created_on (insertedWf wf v).updated_on none
        = insertedWf wf v := by
      rw [Workflow.construct.eq_def]
      simp only [Option.getD_none]
      rw [hydrate_pairs _ hidc]
      have hstates : ((insertedWf wf v).id_fw.map Prod.snd).map
          (fun f => (f.fw_id, f.state))
          = (insertedWf wf v).fw_states := by
        rw [List.map_map, h4wf2]
        apply List.map_congr_left
        intro kv hkv
        simp only [Function.comp_apply]
        rw [hidc kv hkv]
      rw [hstates]
    rw [get_wf_by_fw_id]
    simp only [hst2.symm] at hmapfind hhydr ⊢
    have hwfnone : List.find? (fun r : Nat × WfDbDict => r.1 == w + 1) st.workflows
        = none := by
      rw [List.find?_eq_none]
      intro r hr
      simpa using hwffresh r hr
    simp [hmapfind, hwfnone, sqlite_to_workflow, workflow_to_sqlite,
      Workflow.to_db_dict, hhydr, hcons, Bind.bind, Except.bind]

/-- C8 witness: inserting the linear graph into a freshly reset store gives
member 2 exactly one membership row, pointing at workflow id 2 (the second
id handed out), under which the payload sits, and resolution returns the
inserted graph. -/
theorem c8_witness :
    ∃ pr, add_wf (reset lpEmpty) wfLinear true = .ok pr ∧
      ∃ n, dictLookup pr.1 2 = some n ∧
        pr.2.mapping.filter (fun row => row.1 == n) = [(n, 2)] ∧
        pr.2.workflows.find? (fun row => row.1 == 2)
          = some (2, workflow_to_sqlite (insertedWf wfLinear 1)) ∧
        get_wf_by_fw_id pr.2 n = .ok (insertedWf wfLinear 1) := by
  exact c8_membership_index (reset lpEmpty) wfLinear 2 1 1 rfl rfl
    (by decide) (by decide) (by decide) (by decide)
    (by intro row hrow; simp [reset, lpEmpty] at hrow)
    (by intro row hrow; simp [reset, lpEmpty] at hrow)
    (by decide)

end FireworksSpec
